import Mathlib

set_option maxRecDepth 10000

/-!
Shallow embedding of the Hububba Calls presence/session coordinator
(`src/server.py`): room store, connection registry, join / leave /
disconnect-grace / kick / heartbeat handlers, chat buffer and WebRTC relay,
together with theorems checking the specified properties.

Timestamps are modelled as integers; the two global dictionaries `rooms` and
`sid_index` are modelled as functions `String → Option _` (Python dict lookup),
while a room's `users` dict is an insertion-ordered association list so that
iteration order (`min`, `sorted`) matches Python dict semantics.
-/

/-- Python-dict association-list lookup: value of the first entry with the key. -/
def dget {β : Type} (d : List (String × β)) (k : String) : Option β :=
  match d with
  | [] => none
  | kv :: rest => if kv.1 = k then some kv.2 else dget rest k

/-- Python-dict update: replace the value in place if the key is present
(keeping its position, as CPython dicts do), otherwise append at the end. -/
def dset {β : Type} (d : List (String × β)) (k : String) (v : β) : List (String × β) :=
  match d with
  | [] => [(k, v)]
  | kv :: rest => if kv.1 = k then (k, v) :: rest else kv :: dset rest k v

/-- Python-dict `pop`: drop every entry with the key, keeping the rest in order. -/
def derase {β : Type} (d : List (String × β)) (k : String) : List (String × β) :=
  match d with
  | [] => []
  | kv :: rest => if kv.1 = k then derase rest k else kv :: derase rest k

/-- Characters stripped by Python `str.strip()`. -/
def isPySpace (c : Char) : Bool :=
  c = ' ' || c = '\t' || c = '\n' || c = '\r' || c = Char.ofNat 11 || c = Char.ofNat 12

/-- Python `str.strip()`. -/
def pyStrip (s : String) : String :=
  String.mk (((s.toList.dropWhile isPySpace).reverse.dropWhile isPySpace).reverse)

/-- Python's code-point-wise `<` on strings, as a structurally recursive
boolean on the code-point lists (same relation as Lean's `String.lt`, but
reducible by the kernel). -/
def pyListLt : List Char → List Char → Bool
  | [], [] => false
  | [], _ :: _ => true
  | _ :: _, [] => false
  | a :: as, b :: bs =>
      if a.toNat < b.toNat then true
      else if b.toNat < a.toNat then false
      else pyListLt as bs

/-- Python `a < b` on strings. -/
def pyStrLt (a b : String) : Bool := pyListLt a.toList b.toList

/-- Python `a <= b` on strings (total order: `¬ b < a`). -/
def pyStrLe (a b : String) : Bool := !(pyStrLt b a)

/-- Python `str.lower()` on an ASCII letter. -/
def pyLowerChar (c : Char) : Char :=
  if 65 ≤ c.toNat ∧ c.toNat ≤ 90 then Char.ofNat (c.toNat + 32) else c

/-- Python `str.lower()` (ASCII). -/
def pyLower (s : String) : String := String.mk (s.toList.map pyLowerChar)

/-- Python `text[:n]`: the first `n` code points. -/
def pyTakeStr (n : Nat) (s : String) : String :=
  String.mk (s.toList.take n)

/-- Python `l[-n:]` for a nonnegative `n`: the last `n` elements, except that
`n = 0` yields the whole list (`l[-0:] = l[0:] = l`). -/
def pyLastSlice {α : Type} (n : Nat) (l : List α) : List α :=
  if n = 0 then l else l.drop (l.length - n)

/-- The tunables read from the environment at startup
(`GRACE_SECONDS`, `STALE_SECONDS`, `CHAT_MAX`, `CHAT_TRIM_TO`). -/
structure Config where
  graceSeconds : Int
  staleSeconds : Int
  chatMax : Nat
  chatTrimTo : Nat
deriving Repr, DecidableEq

/-- The default tunables (`DISCONNECT_GRACE_SECONDS=5`, `DUPLICATE_STALE_SECONDS=2`,
`CHAT_MAX=200`, `CHAT_TRIM_TO=160`). -/
def cfg0 : Config := ⟨5, 2, 200, 160⟩

/-- A member record: `{"sid": ..., "last_seen": ..., "joined_at": ...}`. -/
structure Member where
  sid : String
  last_seen : Int
  joined_at : Int
deriving Repr, DecidableEq

/-- A chat message: `{"ts", "type", "user", "text", "room"}`. -/
structure ChatMsg where
  ts : Int
  mtype : String
  user : Option String
  text : String
  room : String
deriving Repr, DecidableEq

/-- A room record: `{"created", "owner", "users", "chat"}`. -/
structure RoomState where
  created : Int
  owner : Option String
  users : List (String × Member)
  chat : List ChatMsg
deriving Repr, DecidableEq

/-- A `sid_index` entry: `{"room": ..., "user": ...}`. -/
structure SidMeta where
  room : String
  user : String
deriving Repr, DecidableEq

/-- The whole mutable server state: the `rooms` dict and the `sid_index` dict. -/
structure ServerState where
  rooms : String → Option RoomState
  sid_index : String → Option SidMeta

/-- The state at process start: both dictionaries empty. -/
def initState : ServerState := ⟨fun _ => none, fun _ => none⟩

/-- Payload of the `joined` acknowledgement sent to a successful joiner. -/
structure JoinedPayload where
  room : String
  created : Int
  users : List String
  owner : Option String
  chat : List ChatMsg
deriving Repr, DecidableEq

/-- Outbound emissions of the handlers (socket events, with their target
connection or room where a claim needs it). -/
inductive Msg where
  | kicked (toSid room by_ reason : String)
  | roomsUpdate
  | ownerChanged (room owner : String)
  | chatMessage (room : String) (m : ChatMsg)
  | ready (room user skipSid : String)
  | joinedAck (p : JoinedPayload)
  | joinError (field text : String)
  | joinConflict (room user : String)
  | peerLeft (room user : String)
  | kickResult (ok : Bool) (info : String)
  | webrtcOffer (toSid : String) (room toName payload : String)
  | webrtcAnswer (toSid : String) (room toName payload : String)
  | webrtcIce (toSid : String) (room toName payload : String)
deriving Repr, DecidableEq

/-- Control-flow outcome of the `join` handler. `keyError` is the unhandled
`KeyError` raised at `len(rooms[room]["users"])` when the evicted holder was
the room's last member (eviction deleted the room). -/
inductive JoinRes where
  | errorField (f : String)
  | conflict
  | ok (p : JoinedPayload)
  | keyError
deriving Repr, DecidableEq

/-- `ensure_room`: create the room record if absent. -/
def ensure_room (t : Int) (room : String) (s : ServerState) : ServerState :=
  match s.rooms room with
  | some _ => s
  | none =>
      { s with rooms := fun r => if r = room then some ⟨t, none, [], []⟩ else s.rooms r }

/-- `mark_seen`: bind `sid` to `(room, user)`.  A fresh record (new `joined_at`)
is written when the member is absent or currently holds a different sid;
otherwise only `last_seen` (and redundantly `sid`) are refreshed.  The
`sid_index` entry for `sid` is (re)written in both cases. -/
def mark_seen (t : Int) (room user sid : String) (s : ServerState) : ServerState :=
  let s1 := ensure_room t room s
  match s1.rooms room with
  | none => s1
  | some v =>
      let users' :=
        match dget v.users user with
        | none => dset v.users user ⟨sid, t, t⟩
        | some cur =>
            if cur.sid = sid then
              dset v.users user ⟨sid, t, cur.joined_at⟩
            else
              dset v.users user ⟨sid, t, t⟩
      { rooms := fun r => if r = room then some { v with users := users' } else s1.rooms r,
        sid_index := fun c => if c = sid then some ⟨room, user⟩ else s1.sid_index c }

/-- `remove_user`: drop the member (bailing out when `expect_sid` is a
non-empty string different from the stored sid), purge every `sid_index`
entry bound to `(room, user)`, and delete the room if it became empty. -/
def remove_user (room user : String) (expect : Option String) (s : ServerState) : ServerState :=
  match s.rooms room with
  | none => s
  | some v =>
      match dget v.users user with
      | none => s
      | some u =>
          let bail : Bool :=
            match expect with
            | none => false
            | some e => !(e == "") && !(u.sid == e)
          if bail then s
          else
            let users' := derase v.users user
            let idx' : String → Option SidMeta := fun c =>
              match s.sid_index c with
              | none => none
              | some meta => if meta.room = room ∧ meta.user = user then none else some meta
            let rooms' : String → Option RoomState :=
              if users' = [] then
                fun r => if r = room then none else s.rooms r
              else
                fun r => if r = room then some { v with users := users' } else s.rooms r
            ⟨rooms', idx'⟩

/-- `add_chat`: append a (length-capped) message to the room's chat and trim
the log to the last `CHAT_TRIM_TO` entries once it exceeds `CHAT_MAX`. -/
def add_chat (cfg : Config) (t : Int) (room mtype : String) (user : Option String)
    (text : String) (s : ServerState) : ServerState × Option ChatMsg :=
  match s.rooms room with
  | none => (s, none)
  | some v =>
      let msg : ChatMsg := ⟨t, mtype, user, pyTakeStr 500 text, room⟩
      let chat1 := v.chat ++ [msg]
      let chat2 := if chat1.length > cfg.chatMax then pyLastSlice cfg.chatTrimTo chat1 else chat1
      ({ s with rooms := fun r => if r = room then some { v with chat := chat2 } else s.rooms r },
       some msg)

/-- Python `min(users.items(), key=joined_at)[0]`: the first key (in dict
order) holding the minimal `joined_at`. -/
def minByJoined (l : List (String × Member)) : Option String :=
  (l.foldl
    (fun acc kv =>
      match acc with
      | none => some kv
      | some best => if kv.2.joined_at < best.2.joined_at then some kv else some best)
    none).map (fun kv => kv.1)

/-- `transfer_owner_if_needed`: keep the owner if it is a (truthy) current
member; clear it if the room is empty; otherwise promote the earliest joiner
and announce it. -/
def transfer_owner_if_needed (cfg : Config) (t : Int) (room : String) (s : ServerState) :
    ServerState × List Msg :=
  match s.rooms room with
  | none => (s, [])
  | some v =>
      let ownerValid : Bool :=
        match v.owner with
        | none => false
        | some o => !(o == "") && (dget v.users o).isSome
      if ownerValid then (s, [])
      else if v.users = [] then
        ({ s with rooms := fun r => if r = room then some { v with owner := none } else s.rooms r },
         [])
      else
        match minByJoined v.users with
        | none => (s, [])
        | some nextOwner =>
            let s2 : ServerState :=
              { s with rooms := fun r =>
                  if r = room then some { v with owner := some nextOwner } else s.rooms r }
            ((add_chat cfg t room "system" none (nextOwner ++ " is now operator") s2).1,
             [Msg.ownerChanged room nextOwner])

/-- `is_admin_sid`: the connection is bound and its user is its room's owner. -/
def is_admin_sid (sid : String) (s : ServerState) : Bool :=
  match s.sid_index sid with
  | none => false
  | some meta =>
      match s.rooms meta.room with
      | none => false
      | some v => v.owner = some meta.user

/-- The owner (re)assignment step inside the join flow: when the room was
empty before the bind or currently has no owner, the joining user becomes
owner. -/
def ownerAssign (room user : String) (cond : Bool) (s2 : ServerState) : ServerState :=
  if cond then
    match s2.rooms room with
    | none => s2
    | some v2 =>
        { s2 with rooms := fun r =>
            if r = room then some { v2 with owner := some user } else s2.rooms r }
  else s2

/-- Tail of `on_join` after the duplicate-name arbitration: the re-read of
`rooms[room]` (which raises `KeyError` when the eviction just deleted the
room), `mark_seen`, owner election, system chat entry and acknowledgements. -/
def joinProceed (cfg : Config) (t : Int) (sid room user : String) (s : ServerState)
    (msgs : List Msg) : ServerState × List Msg × JoinRes :=
  match s.rooms room with
  | none => (s, msgs, JoinRes.keyError)
  | some v =>
      let s2 := mark_seen t room user sid s
      let ownerNone : Bool :=
        match s2.rooms room with
        | none => true
        | some v2 => v2.owner.isNone
      let s3 := ownerAssign room user (v.users.isEmpty || ownerNone) s2
      let msgsO :=
        if v.users.isEmpty || ownerNone then [Msg.ownerChanged room user]
        else ([] : List Msg)
      let s4 := (add_chat cfg t room "system" none (user ++ " joined") s3).1
      let msgsC :=
        match (add_chat cfg t room "system" none (user ++ " joined") s3).2 with
        | none => ([] : List Msg)
        | some m => [Msg.chatMessage room m]
      match s4.rooms room with
      | none => (s4, msgs ++ msgsO ++ msgsC, JoinRes.keyError)
      | some v4 =>
          let payload : JoinedPayload :=
            ⟨room, v4.created,
             (v4.users.map (fun kv => kv.1)).insertionSort (fun a b => pyStrLe a b = true),
             v4.owner, pyLastSlice 100 v4.chat⟩
          (s4,
           msgs ++ msgsO ++ msgsC ++
             [Msg.ready room user sid, Msg.joinedAck payload, Msg.roomsUpdate],
           JoinRes.ok payload)

/-- `on_join`: input validation, duplicate-name arbitration (refresh /
evict-if-stale-or-forced / conflict), then `joinProceed`. -/
def on_join (cfg : Config) (t : Int) (sid roomRaw userRaw : String) (force : Bool)
    (s : ServerState) : ServerState × List Msg × JoinRes :=
  let room := pyStrip roomRaw
  let user := pyStrip userRaw
  if room = "" then (s, [Msg.joinError "room" "Room name required"], JoinRes.errorField "room")
  else if user = "" then
    (s, [Msg.joinError "user" "Display name required"], JoinRes.errorField "user")
  else
    let s1 := ensure_room t room s
    match (s1.rooms room).bind (fun v => dget v.users user) with
    | some ex =>
        if ex.sid = sid then joinProceed cfg t sid room user s1 []
        else if t - ex.last_seen ≥ cfg.staleSeconds ∨ force then
          let s2 := remove_user room user (some ex.sid) s1
          joinProceed cfg t sid room user s2
            [Msg.kicked ex.sid room "system" "name_taken", Msg.roomsUpdate]
        else (s1, [Msg.joinConflict room user], JoinRes.conflict)
    | none => joinProceed cfg t sid room user s1 []

/-- `on_kick_user`: owner-only removal of another member of the caller's room. -/
def on_kick_user (cfg : Config) (t : Int) (sid roomRaw targetRaw : String) (s : ServerState) :
    ServerState × List Msg :=
  match s.sid_index sid with
  | none => (s, [Msg.kickResult false "Not joined"])
  | some meta =>
      let room := pyStrip roomRaw
      let target := pyStrip targetRaw
      if room = "" ∨ target = "" then (s, [Msg.kickResult false "Missing room/target"])
      else if ¬ meta.room = room then (s, [Msg.kickResult false "Wrong room"])
      else if ¬ is_admin_sid sid s then (s, [Msg.kickResult false "Not authorized"])
      else if target = meta.user then (s, [Msg.kickResult false "Cannot kick yourself"])
      else
        match (s.rooms room).bind (fun v => dget v.users target) with
        | none => (s, [Msg.kickResult false "User not found"])
        | some ex =>
            let s2 := remove_user room target (some ex.sid) s
            let s3 := (transfer_owner_if_needed cfg t room s2).1
            let msgsT := (transfer_owner_if_needed cfg t room s2).2
            let s4 :=
              (add_chat cfg t room "system" none (target ++ " was kicked by " ++ meta.user) s3).1
            let msgsC :=
              match (add_chat cfg t room "system" none
                  (target ++ " was kicked by " ++ meta.user) s3).2 with
              | none => ([] : List Msg)
              | some m => [Msg.chatMessage room m]
            (s4,
             [Msg.kicked ex.sid room meta.user "admin", Msg.roomsUpdate] ++ msgsT ++
               [Msg.peerLeft room target] ++ msgsC ++ [Msg.kickResult true target])

/-- `on_leave`: explicit leave of the calling connection. -/
def on_leave (cfg : Config) (t : Int) (sid : String) (s : ServerState) :
    ServerState × List Msg :=
  match s.sid_index sid with
  | none => (s, [])
  | some meta =>
      let s2 := remove_user meta.room meta.user (some sid) s
      let s3 := (transfer_owner_if_needed cfg t meta.room s2).1
      let msgsT := (transfer_owner_if_needed cfg t meta.room s2).2
      let s4 := (add_chat cfg t meta.room "system" none (meta.user ++ " left") s3).1
      let msgsC :=
        match (add_chat cfg t meta.room "system" none (meta.user ++ " left") s3).2 with
        | none => ([] : List Msg)
        | some m => [Msg.chatMessage meta.room m]
      (s4, [Msg.roomsUpdate, Msg.peerLeft meta.room meta.user] ++ msgsT ++ msgsC)

/-- The synchronous part of `on_disconnect`: refresh last-seen; the deferred
grace check is modelled separately by `cleanup`. -/
def on_disconnect_sync (t : Int) (sid : String) (s : ServerState) : ServerState :=
  match s.sid_index sid with
  | none => s
  | some meta => mark_seen t meta.room meta.user sid s

/-- `on_heartbeat`: refresh last-seen of the bound member, if any. -/
def on_heartbeat (t : Int) (sid : String) (s : ServerState) : ServerState :=
  match s.sid_index sid with
  | none => s
  | some meta => mark_seen t meta.room meta.user sid s

/-- The deferred grace check spawned by `on_disconnect`, evaluated at fire
time `t`: abort if the registry entry is gone or last-seen was refreshed
within the grace window; otherwise finalize removal like a leave. -/
def cleanup (cfg : Config) (t : Int) (sid : String) (s : ServerState) :
    ServerState × List Msg :=
  match s.sid_index sid with
  | none => (s, [])
  | some m =>
      match (s.rooms m.room).bind (fun v => dget v.users m.user) with
      | none => (s, [])
      | some current =>
          if t - current.last_seen ≥ cfg.graceSeconds then
            let s2 := remove_user m.room m.user (some current.sid) s
            let s3 := (transfer_owner_if_needed cfg t m.room s2).1
            let msgsT := (transfer_owner_if_needed cfg t m.room s2).2
            let s4 := (add_chat cfg t m.room "system" none (m.user ++ " left") s3).1
            let msgsC :=
              match (add_chat cfg t m.room "system" none (m.user ++ " left") s3).2 with
              | none => ([] : List Msg)
              | some mm => [Msg.chatMessage m.room mm]
            (s4, [Msg.roomsUpdate, Msg.peerLeft m.room m.user] ++ msgsT ++ msgsC)
          else (s, [])

/-- `_sid_for`: resolve a `(room, name)` pair to the member's connection id. -/
def sid_for (room name : String) (s : ServerState) : Option String :=
  ((s.rooms room).bind (fun v => dget v.users name)).map (fun u => u.sid)

/-- `on_webrtc_offer`: forward the payload verbatim to the resolved member's
connection; silently drop when `(room, to)` is falsy or unresolved. -/
def on_webrtc_offer (room toName payload : String) (s : ServerState) : List Msg :=
  if ¬ room = "" ∧ ¬ toName = "" then
    match sid_for room toName s with
    | some tsid => if ¬ tsid = "" then [Msg.webrtcOffer tsid room toName payload] else []
    | none => []
  else []

/-- `on_webrtc_answer`: same relay as `on_webrtc_offer`. -/
def on_webrtc_answer (room toName payload : String) (s : ServerState) : List Msg :=
  if ¬ room = "" ∧ ¬ toName = "" then
    match sid_for room toName s with
    | some tsid => if ¬ tsid = "" then [Msg.webrtcAnswer tsid room toName payload] else []
    | none => []
  else []

/-- `on_webrtc_ice`: same relay as `on_webrtc_offer`. -/
def on_webrtc_ice (room toName payload : String) (s : ServerState) : List Msg :=
  if ¬ room = "" ∧ ¬ toName = "" then
    match sid_for room toName s with
    | some tsid => if ¬ tsid = "" then [Msg.webrtcIce tsid room toName payload] else []
    | none => []
  else []

/-- The state-mutating inbound events, each carrying its arrival time. -/
inductive Event where
  | join (t : Int) (sid room user : String) (force : Bool)
  | leave (t : Int) (sid : String)
  | disconnect (t : Int) (sid : String)
  | graceCheck (t : Int) (sid : String)
  | kick (t : Int) (sid room target : String)
  | heartbeat (t : Int) (sid : String)

/-- One event's effect on the server state (emissions projected away). -/
def step (cfg : Config) (s : ServerState) : Event → ServerState
  | Event.join t sid room user force => (on_join cfg t sid room user force s).1
  | Event.leave t sid => (on_leave cfg t sid s).1
  | Event.disconnect t sid => on_disconnect_sync t sid s
  | Event.graceCheck t sid => (cleanup cfg t sid s).1
  | Event.kick t sid room target => (on_kick_user cfg t sid room target s).1
  | Event.heartbeat t sid => on_heartbeat t sid s

/-- Run a finite event sequence from a state. -/
def run (cfg : Config) (evs : List Event) (s : ServerState) : ServerState :=
  evs.foldl (step cfg) s

/-- Lookup helper: the member bound to `user` in `room`. -/
def memberOf (s : ServerState) (room user : String) : Option Member :=
  (s.rooms room).bind (fun v => dget v.users user)

/-- Lookup helper: the owner field of a room, if the room exists. -/
def ownerOf (s : ServerState) (room : String) : Option String :=
  (s.rooms room).bind (fun v => v.owner)

/-! ### Association-list lemmas -/

theorem dget_dset_self {β : Type} (d : List (String × β)) (k : String) (v : β) :
    dget (dset d k v) k = some v := by
  induction d with
  | nil => simp [dget, dset]
  | cons kv rest ih =>
      by_cases h : kv.1 = k
      · simp [dget, dset, h]
      · simp [dget, dset, h, ih]

theorem dget_dset_ne {β : Type} (d : List (String × β)) (k k' : String) (v : β)
    (h : ¬ k' = k) : dget (dset d k v) k' = dget d k' := by
  have hkk : ¬ k = k' := fun hx => h hx.symm
  induction d with
  | nil => simp [dget, dset, hkk]
  | cons kv rest ih =>
      by_cases hh : kv.1 = k
      · have hne : ¬ kv.1 = k' := fun hx => h (hx.symm.trans hh)
        simp [dget, dset, hh, hkk, hne]
      · by_cases hk' : kv.1 = k'
        · simp [dget, dset, hh, hk', h]
        · simp [dget, dset, hh, hk', ih]

theorem dget_derase_self {β : Type} (d : List (String × β)) (k : String) :
    dget (derase d k) k = none := by
  induction d with
  | nil => simp [dget, derase]
  | cons kv rest ih =>
      by_cases h : kv.1 = k
      · simpa [derase, h] using ih
      · simpa [derase, h, dget] using ih

theorem dget_derase_ne {β : Type} (d : List (String × β)) (k k' : String)
    (h : ¬ k' = k) : dget (derase d k) k' = dget d k' := by
  have hkk : ¬ k = k' := fun hx => h hx.symm
  induction d with
  | nil => simp [derase]
  | cons kv rest ih =>
      by_cases hh : kv.1 = k
      · have hne : ¬ kv.1 = k' := fun hx => h (hx.symm.trans hh)
        simp [derase, hh, dget, hne, hkk, ih]
      · by_cases hk' : kv.1 = k'
        · simp [derase, hh, dget, hk', h]
        · simp [derase, hh, dget, hk', ih]

theorem derase_keeps {β : Type} (d : List (String × β)) (k w : String) (mw : β)
    (hget : dget d w = some mw) (hw : ¬ w = k) : ¬ derase d k = [] := by
  intro hnil
  have := dget_derase_ne d k w hw
  rw [hnil] at this
  simp [dget] at this
  rw [hget] at this
  exact Option.noConfusion this

theorem dget_isSome_dset {β : Type} (d : List (String × β)) (k k' : String) (v : β)
    (h : (dget d k').isSome) : (dget (dset d k v) k').isSome := by
  by_cases hk : k' = k
  · simp [hk, dget_dset_self]
  · simpa [dget_dset_ne d k k' v hk] using h

/-! ### `minByJoined` -/

theorem minBy_foldl_mem (l : List (String × Member)) :
    ∀ (acc r : Option (String × Member)),
      l.foldl
        (fun acc kv =>
          match acc with
          | none => some kv
          | some best => if kv.2.joined_at < best.2.joined_at then some kv else some best)
        acc = r →
      r = acc ∨ ∃ kv, kv ∈ l ∧ r = some kv := by
  induction l with
  | nil => intro acc r h; exact Or.inl h.symm
  | cons hd tl ih =>
      intro acc r h
      simp only [List.foldl_cons] at h
      rcases ih _ r h with h1 | ⟨kv, hmem, rfl⟩
      · match acc with
        | none =>
            exact Or.inr ⟨hd, List.mem_cons_self hd tl, h1⟩
        | some best =>
            by_cases hlt : hd.2.joined_at < best.2.joined_at
            · simp only [hlt, if_pos] at h1
              exact Or.inr ⟨hd, List.mem_cons_self hd tl, h1⟩
            · simp only [hlt, if_neg, not_false_iff] at h1
              exact Or.inl h1
      · exact Or.inr ⟨kv, List.mem_cons_of_mem hd hmem, rfl⟩

theorem dget_isSome_of_mem (l : List (String × Member)) (kv : String × Member)
    (h : kv ∈ l) : (dget l kv.1).isSome := by
  induction l with
  | nil => cases h
  | cons hd tl ih =>
      rcases List.mem_cons.mp h with rfl | hmem
      · simp [dget]
      · by_cases hh : hd.1 = kv.1
        · simp [dget, hh]
        · simpa [dget, hh] using ih hmem

theorem minBy_spec (l : List (String × Member)) (hne : ¬ l = []) :
    ∃ k, minByJoined l = some k ∧ (dget l k).isSome := by
  match l, hne with
  | hd :: tl, _ =>
      have h := minBy_foldl_mem (hd :: tl) none (
        (hd :: tl).foldl
          (fun acc kv =>
            match acc with
            | none => some kv
            | some best => if kv.2.joined_at < best.2.joined_at then some kv else some best)
          none) rfl
      rcases h with h1 | ⟨kv, hmem, hkv⟩
      · -- the fold over a nonempty list cannot return `none`
        exfalso
        simp only [List.foldl_cons] at h1
        rcases minBy_foldl_mem tl (some hd) none h1 with h2 | ⟨kv, _, hkv⟩
        · exact Option.noConfusion h2
        · exact Option.noConfusion hkv
      · refine ⟨kv.1, ?_, dget_isSome_of_mem _ _ hmem⟩
        simp [minByJoined, hkv]

/-! ### `pyLastSlice` -/

theorem pyLastSlice_length_le (n : Nat) (l : List ChatMsg) (h0 : ¬ n = 0) :
    (pyLastSlice n l).length ≤ n := by
  simp only [pyLastSlice, if_neg h0, List.length_drop]
  omega

theorem pyLastSlice_eq_drop (n : Nat) (l : List ChatMsg) (h0 : ¬ n = 0) :
    pyLastSlice n l = l.drop (l.length - n) := by
  simp [pyLastSlice, h0]

/-! ### Handler characterization lemmas -/

/-- The users dict of a room (empty when the room is absent). -/
def usersOf (s : ServerState) (room : String) : List (String × Member) :=
  match s.rooms room with
  | some v => v.users
  | none => []

/-- The member record written by `mark_seen` given the previous record. -/
def markRec (t : Int) (sid : String) : Option Member → Member
  | some cur => if cur.sid = sid then ⟨sid, t, cur.joined_at⟩ else ⟨sid, t, t⟩
  | none => ⟨sid, t, t⟩

theorem memberOf_eq_dget_usersOf (s : ServerState) (r u : String) :
    memberOf s r u = dget (usersOf s r) u := by
  unfold memberOf usersOf
  match s.rooms r with
  | some v => rfl
  | none => rfl

theorem ensure_room_present (t : Int) (room : String) (s : ServerState) (v : RoomState)
    (hv : s.rooms room = some v) : ensure_room t room s = s := by
  unfold ensure_room
  rw [hv]

theorem dset_ne_nil {β : Type} (d : List (String × β)) (k : String) (v : β) :
    ¬ dset d k v = [] := by
  match d with
  | [] => simp [dset]
  | kv :: rest =>
      by_cases h : kv.1 = k <;> simp [dset, h]

theorem mark_seen_eq (t : Int) (room user sid : String) (s : ServerState) (v : RoomState)
    (hv : s.rooms room = some v) :
    mark_seen t room user sid s =
      ⟨fun r => if r = room then
          some { v with users := dset v.users user (markRec t sid (dget v.users user)) }
        else s.rooms r,
       fun c => if c = sid then some ⟨room, user⟩ else s.sid_index c⟩ := by
  unfold mark_seen
  rw [ensure_room_present t room s v hv]
  simp only [hv]
  cases hd : dget v.users user with
  | none => simp [markRec, hd]
  | some cur =>
      by_cases hs : cur.sid = sid
      · simp [markRec, hd, hs]
      · simp [markRec, hd, hs]

theorem mark_seen_eq_absent (t : Int) (room user sid : String) (s : ServerState)
    (hv : s.rooms room = none) :
    mark_seen t room user sid s =
      ⟨fun r => if r = room then some ⟨t, none, [(user, ⟨sid, t, t⟩)], []⟩ else s.rooms r,
       fun c => if c = sid then some ⟨room, user⟩ else s.sid_index c⟩ := by
  unfold mark_seen ensure_room
  rw [hv]
  simp only [if_pos rfl]
  simp [dget, dset]
  funext r
  by_cases hr : r = room <;> simp [hr]

theorem add_chat_fst_users (cfg : Config) (t : Int) (room mtype : String)
    (user : Option String) (text : String) (s : ServerState) (r : String) :
    usersOf ((add_chat cfg t room mtype user text s).1) r = usersOf s r := by
  unfold add_chat
  cases hv : s.rooms room with
  | none => rfl
  | some v =>
      by_cases hr : r = room
      · subst hr; simp [usersOf, hv]
      · simp [usersOf, hr]

theorem add_chat_fst_owner (cfg : Config) (t : Int) (room mtype : String)
    (user : Option String) (text : String) (s : ServerState) (r : String) :
    ownerOf ((add_chat cfg t room mtype user text s).1) r = ownerOf s r := by
  unfold add_chat
  cases hv : s.rooms room with
  | none => rfl
  | some v =>
      by_cases hr : r = room
      · subst hr; simp [ownerOf, hv]
      · simp [ownerOf, hr]

theorem add_chat_fst_isSome (cfg : Config) (t : Int) (room mtype : String)
    (user : Option String) (text : String) (s : ServerState) (r : String) :
    (((add_chat cfg t room mtype user text s).1).rooms r).isSome = (s.rooms r).isSome := by
  unfold add_chat
  cases hv : s.rooms room with
  | none => rfl
  | some v =>
      by_cases hr : r = room
      · subst hr; simp [hv]
      · simp [hr]

theorem add_chat_fst_idx (cfg : Config) (t : Int) (room mtype : String)
    (user : Option String) (text : String) (s : ServerState) :
    ((add_chat cfg t room mtype user text s).1).sid_index = s.sid_index := by
  unfold add_chat
  cases hv : s.rooms room with
  | none => rfl
  | some v => rfl

theorem add_chat_fst_rooms_other (cfg : Config) (t : Int) (room mtype : String)
    (user : Option String) (text : String) (s : ServerState) (r : String) (hr : ¬ r = room) :
    ((add_chat cfg t room mtype user text s).1).rooms r = s.rooms r := by
  unfold add_chat
  cases hv : s.rooms room with
  | none => rfl
  | some v => simp [hr]

/-- The registry pruning performed by a removal of `(room, user)`. -/
def pruneIdx (room user : String) (idx : String → Option SidMeta) :
    String → Option SidMeta := fun c =>
  match idx c with
  | none => none
  | some meta => if meta.room = room ∧ meta.user = user then none else some meta

theorem remove_user_removes (room user : String) (e : Option String) (s : ServerState)
    (v : RoomState) (u : Member) (hv : s.rooms room = some v)
    (hu : dget v.users user = some u) (he : e = none ∨ e = some u.sid) :
    remove_user room user e s =
      ⟨fun r => if r = room then
          (if derase v.users user = [] then none
           else some { v with users := derase v.users user })
        else s.rooms r,
       pruneIdx room user s.sid_index⟩ := by
  rcases he with rfl | rfl <;>
  · simp only [remove_user, hv, hu, pruneIdx, beq_self_eq_true, Bool.not_true,
      Bool.and_false, Bool.false_eq_true, if_false]
    congr 1
    · funext r
      by_cases hr : r = room
      · subst hr
        by_cases hnil : derase v.users user = []
        · simp [hnil]
        · simp [hnil]
      · by_cases hnil : derase v.users user = []
        · simp [hnil, hr]
        · simp [hnil, hr]

theorem remove_user_cases (room user : String) (e : Option String) (s : ServerState) :
    remove_user room user e s = s ∨
    (∃ v u, s.rooms room = some v ∧ dget v.users user = some u ∧
      remove_user room user e s =
        ⟨fun r => if r = room then
            (if derase v.users user = [] then none
             else some { v with users := derase v.users user })
          else s.rooms r,
         pruneIdx room user s.sid_index⟩) := by
  cases hv : s.rooms room with
  | none => left; simp [remove_user, hv]
  | some v =>
      cases hu : dget v.users user with
      | none => left; simp [remove_user, hv, hu]
      | some u =>
          cases hbail : (match e with
            | none => false
            | some ex => !(ex == "") && !(u.sid == ex)) with
          | true => left; simp only [remove_user, hv, hu, hbail, if_true]
          | false =>
              refine Or.inr ⟨v, u, hv.symm ▸ rfl, hu, ?_⟩
              simp only [remove_user, hv, hu, hbail, Bool.false_eq_true, if_false, pruneIdx]
              congr 1
              · funext r
                by_cases hr : r = room
                · subst hr
                  by_cases hnil : derase v.users user = []
                  · simp [hnil]
                  · simp [hnil]
                · by_cases hnil : derase v.users user = []
                  · simp [hnil, hr]
                  · simp [hnil, hr]

theorem transfer_cases (cfg : Config) (t : Int) (room : String) (s : ServerState) :
    (s.rooms room = none ∧ transfer_owner_if_needed cfg t room s = (s, [])) ∨
    (∃ v o, s.rooms room = some v ∧ v.owner = some o ∧
      (!(o == "") && (dget v.users o).isSome) = true ∧
      transfer_owner_if_needed cfg t room s = (s, [])) ∨
    (∃ v, s.rooms room = some v ∧ v.users = [] ∧
      transfer_owner_if_needed cfg t room s =
        ({ s with rooms := fun r => if r = room then some { v with owner := none }
            else s.rooms r }, [])) ∨
    (∃ v k, s.rooms room = some v ∧ ¬ v.users = [] ∧ minByJoined v.users = some k ∧
      transfer_owner_if_needed cfg t room s =
        ((add_chat cfg t room "system" none (k ++ " is now operator")
            { s with rooms := fun r => if r = room then some { v with owner := some k }
                else s.rooms r }).1,
         [Msg.ownerChanged room k])) := by
  cases hv : s.rooms room with
  | none => exact Or.inl ⟨rfl, by simp [transfer_owner_if_needed, hv]⟩
  | some v =>
      cases ho : v.owner with
      | some o =>
          cases hb : (!(o == "") && (dget v.users o).isSome) with
          | true =>
              refine Or.inr (Or.inl ⟨v, o, rfl, ho, hb, ?_⟩)
              simp [transfer_owner_if_needed, hv, ho, hb]
          | false =>
              by_cases hnil : v.users = []
              · refine Or.inr (Or.inr (Or.inl ⟨v, rfl, hnil, ?_⟩))
                simp [transfer_owner_if_needed, hv, ho, hnil, dget]
              · rcases minBy_spec v.users hnil with ⟨k, hmin, hks⟩
                refine Or.inr (Or.inr (Or.inr ⟨v, k, rfl, hnil, hmin, ?_⟩))
                simp [transfer_owner_if_needed, hv, ho, hb, hnil, hmin]
      | none =>
          by_cases hnil : v.users = []
          · refine Or.inr (Or.inr (Or.inl ⟨v, rfl, hnil, ?_⟩))
            simp [transfer_owner_if_needed, hv, ho, hnil]
          · rcases minBy_spec v.users hnil with ⟨k, hmin, hks⟩
            refine Or.inr (Or.inr (Or.inr ⟨v, k, rfl, hnil, hmin, ?_⟩))
            simp [transfer_owner_if_needed, hv, ho, hnil, hmin]

theorem transfer_fst_idx (cfg : Config) (t : Int) (room : String) (s : ServerState) :
    ((transfer_owner_if_needed cfg t room s).1).sid_index = s.sid_index := by
  rcases transfer_cases cfg t room s with ⟨_, h⟩ | ⟨v, o, _, _, _, h⟩ | ⟨v, _, _, h⟩ |
    ⟨v, k, _, _, _, h⟩ <;>
  · rw [h]
    try simp [add_chat_fst_idx]

theorem transfer_fst_users (cfg : Config) (t : Int) (room : String) (s : ServerState)
    (r : String) : usersOf ((transfer_owner_if_needed cfg t room s).1) r = usersOf s r := by
  rcases transfer_cases cfg t room s with ⟨_, h⟩ | ⟨v, o, _, _, _, h⟩ | ⟨v, hv, _, h⟩ |
    ⟨v, k, hv, _, _, h⟩
  · rw [h]
  · rw [h]
  · rw [h]
    by_cases hr : r = room
    · subst hr; simp [usersOf, hv]
    · simp [usersOf, hr]
  · rw [h]
    simp only [add_chat_fst_users]
    by_cases hr : r = room
    · subst hr; simp [usersOf, hv]
    · simp [usersOf, hr]

theorem transfer_fst_isSome (cfg : Config) (t : Int) (room : String) (s : ServerState)
    (r : String) :
    (((transfer_owner_if_needed cfg t room s).1).rooms r).isSome = (s.rooms r).isSome := by
  rcases transfer_cases cfg t room s with ⟨_, h⟩ | ⟨v, o, _, _, _, h⟩ | ⟨v, hv, _, h⟩ |
    ⟨v, k, hv, _, _, h⟩
  · rw [h]
  · rw [h]
  · rw [h]
    by_cases hr : r = room
    · subst hr; simp [hv]
    · simp [hr]
  · rw [h]
    simp only [add_chat_fst_isSome]
    by_cases hr : r = room
    · subst hr; simp [hv]
    · simp [hr]

theorem transfer_fst_rooms_other (cfg : Config) (t : Int) (room : String) (s : ServerState)
    (r : String) (hr : ¬ r = room) :
    ((transfer_owner_if_needed cfg t room s).1).rooms r = s.rooms r := by
  rcases transfer_cases cfg t room s with ⟨_, h⟩ | ⟨v, o, _, _, _, h⟩ | ⟨v, hv, _, h⟩ |
    ⟨v, k, hv, _, _, h⟩
  · rw [h]
  · rw [h]
  · rw [h]; simp [hr]
  · rw [h]
    rw [add_chat_fst_rooms_other _ _ _ _ _ _ _ _ hr]
    simp [hr]

theorem transfer_restores (cfg : Config) (t : Int) (room : String) (s : ServerState)
    (hne : ∀ v, s.rooms room = some v → ¬ v.users = []) (v' : RoomState)
    (hv' : ((transfer_owner_if_needed cfg t room s).1).rooms room = some v') :
    ∃ w, v'.owner = some w ∧ (dget v'.users w).isSome := by
  rcases transfer_cases cfg t room s with ⟨hv, h⟩ | ⟨v, o, hv, ho, hb, h⟩ | ⟨v, hv, hnil, h⟩ |
    ⟨v, k, hv, hnil, hmin, h⟩
  · rw [h] at hv'
    have hv2 : s.rooms room = some v' := hv'
    rw [hv] at hv2
    exact Option.noConfusion hv2
  · rw [h] at hv'
    have hv2 : s.rooms room = some v' := hv'
    rw [hv] at hv2
    have hvv : v = v' := by injection hv2
    subst hvv
    have hb2 := (Bool.and_eq_true _ _).mp hb
    exact ⟨o, ho, hb2.2⟩
  · exact absurd hnil (hne v hv)
  · rcases minBy_spec v.users hnil with ⟨k2, hmin2, hks2⟩
    rw [hmin] at hmin2
    have hk2 : k = k2 := by injection hmin2
    subst hk2
    rw [h] at hv'
    have husers := add_chat_fst_users cfg t room "system" none (k ++ " is now operator")
      { s with rooms := fun r => if r = room then some { v with owner := some k }
          else s.rooms r } room
    have howner := add_chat_fst_owner cfg t room "system" none (k ++ " is now operator")
      { s with rooms := fun r => if r = room then some { v with owner := some k }
          else s.rooms r } room
    have husers2 : v'.users = v.users := by
      have hx := husers
      unfold usersOf at hx
      rw [hv'] at hx
      simpa using hx
    have howner2 : v'.owner = some k := by
      have hx := howner
      unfold ownerOf at hx
      rw [hv'] at hx
      simpa using hx
    exact ⟨k, howner2, husers2 ▸ hks2⟩


theorem ownerAssign_idx (room user : String) (b : Bool) (s : ServerState) :
    (ownerAssign room user b s).sid_index = s.sid_index := by
  unfold ownerAssign
  cases b with
  | false => rfl
  | true =>
      cases hv : s.rooms room with
      | none => rfl
      | some v2 => rfl

theorem ownerAssign_rooms_other (room user : String) (b : Bool) (s : ServerState)
    (r : String) (hr : ¬ r = room) : (ownerAssign room user b s).rooms r = s.rooms r := by
  unfold ownerAssign
  cases b with
  | false => rfl
  | true =>
      cases hv : s.rooms room with
      | none => rfl
      | some v2 => simp [hr]

theorem ownerAssign_room_self (room user : String) (b : Bool) (s : ServerState)
    (w : RoomState) (hv : s.rooms room = some w) :
    (ownerAssign room user b s).rooms room =
      some { w with owner := if b then some user else w.owner } := by
  unfold ownerAssign
  cases b with
  | false => simpa using hv
  | true => rw [hv]; simp

theorem joinProceed_spec (cfg : Config) (t : Int) (sid room user : String) (s : ServerState)
    (msgs : List Msg) (v : RoomState) (hv : s.rooms room = some v) :
    ∃ v2 p,
      ((joinProceed cfg t sid room user s msgs).1).rooms room = some v2 ∧
      v2.users = dset v.users user (markRec t sid (dget v.users user)) ∧
      v2.owner = (if v.users.isEmpty || v.owner.isNone then some user else v.owner) ∧
      (∀ r, ¬ r = room → ((joinProceed cfg t sid room user s msgs).1).rooms r = s.rooms r) ∧
      (∀ c, ((joinProceed cfg t sid room user s msgs).1).sid_index c =
        if c = sid then some ⟨room, user⟩ else s.sid_index c) ∧
      (joinProceed cfg t sid room user s msgs).2.2 = JoinRes.ok p ∧
      p.users = (v2.users.map (fun kv => kv.1)).insertionSort
        (fun a b : String => pyStrLe a b = true) ∧
      p.owner = v2.owner := by
  have hmark := mark_seen_eq t room user sid s v hv
  set uNew : List (String × Member) :=
    dset v.users user (markRec t sid (dget v.users user)) with huNew
  set sM := mark_seen t room user sid s with hsM
  have hMroom : sM.rooms room = some ⟨v.created, v.owner, uNew, v.chat⟩ := by
    rw [hmark]; simp
  have hMother : ∀ r, ¬ r = room → sM.rooms r = s.rooms r := by
    intro r hr; rw [hmark]; simp [hr]
  have hMidx : ∀ c, sM.sid_index c =
      (if c = sid then some ⟨room, user⟩ else s.sid_index c) := by
    intro c; rw [hmark]
  have hcondeq :
      (match sM.rooms room with
       | none => true
       | some v2 => v2.owner.isNone) = v.owner.isNone := by
    rw [hMroom]
  set s3 := ownerAssign room user (v.users.isEmpty || v.owner.isNone) sM with hs3
  have h3room : s3.rooms room =
      some ⟨v.created,
            (if v.users.isEmpty || v.owner.isNone then some user else v.owner),
            uNew, v.chat⟩ := by
    rw [hs3, ownerAssign_room_self room user _ sM _ hMroom]
  have h3other : ∀ r, ¬ r = room → s3.rooms r = s.rooms r := by
    intro r hr
    rw [hs3, ownerAssign_rooms_other room user _ sM r hr]
    exact hMother r hr
  have h3idx : ∀ c, s3.sid_index c =
      (if c = sid then some ⟨room, user⟩ else s.sid_index c) := by
    intro c
    rw [hs3, ownerAssign_idx]
    exact hMidx c
  set s4 := (add_chat cfg t room "system" none (user ++ " joined") s3).1 with hs4
  have h4some : (s4.rooms room).isSome = true := by
    rw [hs4, add_chat_fst_isSome, h3room]
    rfl
  rcases Option.isSome_iff_exists.mp h4some with ⟨v4, hv4⟩
  have husers4 : v4.users = uNew := by
    have hx := add_chat_fst_users cfg t room "system" none (user ++ " joined") s3 room
    rw [← hs4] at hx
    unfold usersOf at hx
    rw [hv4, h3room] at hx
    exact hx
  have howner4 : v4.owner =
      (if v.users.isEmpty || v.owner.isNone then some user else v.owner) := by
    have hx := add_chat_fst_owner cfg t room "system" none (user ++ " joined") s3 room
    rw [← hs4] at hx
    unfold ownerOf at hx
    rw [hv4, h3room] at hx
    simpa using hx
  have h4other : ∀ r, ¬ r = room → s4.rooms r = s.rooms r := by
    intro r hr
    rw [hs4, add_chat_fst_rooms_other _ _ _ _ _ _ _ _ hr]
    exact h3other r hr
  have h4idx : ∀ c, s4.sid_index c =
      (if c = sid then some ⟨room, user⟩ else s.sid_index c) := by
    intro c
    rw [hs4, add_chat_fst_idx]
    exact h3idx c
  have hjp : joinProceed cfg t sid room user s msgs =
      (s4,
       msgs ++ (if v.users.isEmpty || v.owner.isNone
          then [Msg.ownerChanged room user] else ([] : List Msg)) ++
         (match (add_chat cfg t room "system" none (user ++ " joined") s3).2 with
          | none => ([] : List Msg)
          | some m => [Msg.chatMessage room m]) ++
         [Msg.ready room user sid,
          Msg.joinedAck ⟨room, v4.created,
            (v4.users.map (fun kv => kv.1)).insertionSort
              (fun a b : String => pyStrLe a b = true),
            v4.owner, pyLastSlice 100 v4.chat⟩, Msg.roomsUpdate],
       JoinRes.ok ⟨room, v4.created,
         (v4.users.map (fun kv => kv.1)).insertionSort
           (fun a b : String => pyStrLe a b = true),
         v4.owner, pyLastSlice 100 v4.chat⟩) := by
    unfold joinProceed
    rw [hv]
    simp only [← hsM, hcondeq, ← hs3, ← hs4, hv4]
  refine ⟨v4, ⟨room, v4.created,
    (v4.users.map (fun kv => kv.1)).insertionSort (fun a b : String => pyStrLe a b = true),
    v4.owner, pyLastSlice 100 v4.chat⟩, ?_, husers4, howner4, ?_, ?_, ?_, rfl, rfl⟩
  · rw [hjp]; exact hv4
  · intro r hr; rw [hjp]; exact h4other r hr
  · intro c; rw [hjp]; exact h4idx c
  · rw [hjp]

theorem on_join_error (cfg : Config) (t : Int) (sid roomRaw userRaw : String) (force : Bool)
    (s : ServerState) (h : pyStrip roomRaw = "" ∨ pyStrip userRaw = "") :
    (on_join cfg t sid roomRaw userRaw force s).1 = s := by
  unfold on_join
  rcases h with h | h
  · simp [h]
  · by_cases hr : pyStrip roomRaw = ""
    · simp [hr]
    · simp [hr, h]

theorem on_join_fresh (cfg : Config) (t : Int) (sid roomRaw userRaw : String) (force : Bool)
    (s : ServerState) (hr : ¬ pyStrip roomRaw = "") (hu : ¬ pyStrip userRaw = "")
    (hmem : ((ensure_room t (pyStrip roomRaw) s).rooms (pyStrip roomRaw)).bind
      (fun v => dget v.users (pyStrip userRaw)) = none) :
    on_join cfg t sid roomRaw userRaw force s =
      joinProceed cfg t sid (pyStrip roomRaw) (pyStrip userRaw)
        (ensure_room t (pyStrip roomRaw) s) [] := by
  unfold on_join
  simp only [hr, if_false, hu, hmem]

theorem on_join_refresh (cfg : Config) (t : Int) (sid roomRaw userRaw : String) (force : Bool)
    (s : ServerState) (m : Member) (hr : ¬ pyStrip roomRaw = "") (hu : ¬ pyStrip userRaw = "")
    (hmem : ((ensure_room t (pyStrip roomRaw) s).rooms (pyStrip roomRaw)).bind
      (fun v => dget v.users (pyStrip userRaw)) = some m) (hsid : m.sid = sid) :
    on_join cfg t sid roomRaw userRaw force s =
      joinProceed cfg t sid (pyStrip roomRaw) (pyStrip userRaw)
        (ensure_room t (pyStrip roomRaw) s) [] := by
  unfold on_join
  simp only [hr, if_false, hu, hmem, hsid, if_pos rfl, if_true]

theorem on_join_evict (cfg : Config) (t : Int) (sid roomRaw userRaw : String) (force : Bool)
    (s : ServerState) (m : Member) (hr : ¬ pyStrip roomRaw = "") (hu : ¬ pyStrip userRaw = "")
    (hmem : ((ensure_room t (pyStrip roomRaw) s).rooms (pyStrip roomRaw)).bind
      (fun v => dget v.users (pyStrip userRaw)) = some m) (hsid : ¬ m.sid = sid)
    (hstale : t - m.last_seen ≥ cfg.staleSeconds ∨ force = true) :
    on_join cfg t sid roomRaw userRaw force s =
      joinProceed cfg t sid (pyStrip roomRaw) (pyStrip userRaw)
        (remove_user (pyStrip roomRaw) (pyStrip userRaw) (some m.sid)
          (ensure_room t (pyStrip roomRaw) s))
        [Msg.kicked m.sid (pyStrip roomRaw) "system" "name_taken", Msg.roomsUpdate] := by
  unfold on_join
  simp only [hr, if_false, hu, hmem, if_neg hsid, if_pos hstale]

theorem on_join_conflict (cfg : Config) (t : Int) (sid roomRaw userRaw : String)
    (s : ServerState) (m : Member) (hr : ¬ pyStrip roomRaw = "") (hu : ¬ pyStrip userRaw = "")
    (hmem : ((ensure_room t (pyStrip roomRaw) s).rooms (pyStrip roomRaw)).bind
      (fun v => dget v.users (pyStrip userRaw)) = some m) (hsid : ¬ m.sid = sid)
    (hfresh : ¬ t - m.last_seen ≥ cfg.staleSeconds) :
    on_join cfg t sid roomRaw userRaw false s =
      (ensure_room t (pyStrip roomRaw) s,
       [Msg.joinConflict (pyStrip roomRaw) (pyStrip userRaw)], JoinRes.conflict) := by
  unfold on_join
  simp only [hr, if_false, hu, hmem, if_neg hsid]
  rw [if_neg]
  intro hor
  rcases hor with hor | hor
  · exact hfresh hor
  · exact Bool.false_ne_true hor

/-! ### Shared concrete scenarios -/

/-- State after `join("r", "alice")` from connection `A` at time 0. -/
def stateAlice : ServerState := run cfg0 [Event.join 0 "A" "r" "alice" false] initState

/-- State after alice joins on `A` (t=0) and bob joins on `C` (t=1). -/
def stateAliceBob : ServerState :=
  run cfg0 [Event.join 0 "A" "r" "alice" false, Event.join 1 "C" "r" "bob" false] initState

/-- State after alice joins on `A` (t=0) and `A` disconnects at t=10
(the disconnect refreshes alice's last-seen to 10 and schedules a grace check). -/
def stateDisc : ServerState :=
  run cfg0 [Event.join 0 "A" "r" "alice" false, Event.disconnect 10 "A"] initState

theorem mark_seen_refresh_spec (t : Int) (r u c : String) (s : ServerState) (v : RoomState)
    (m : Member) (hroom : s.rooms r = some v) (hmem : dget v.users u = some m)
    (hsid : m.sid = c) :
    mark_seen t r u c s =
      ⟨fun r' => if r' = r then some { v with users := dset v.users u ⟨c, t, m.joined_at⟩ }
        else s.rooms r',
       fun c' => if c' = c then some ⟨r, u⟩ else s.sid_index c'⟩ := by
  rw [mark_seen_eq t r u c s v hroom]
  simp [markRec, hmem, hsid]

/-- C6 helper: the exact result of a fresh-holder, non-forced duplicate join. -/
theorem join_conflict_frame (cfg : Config) (t : Int) (sid room user : String)
    (s : ServerState) (v : RoomState) (m : Member) (hroom : s.rooms room = some v)
    (hmem : dget v.users user = some m) (hsid : ¬ m.sid = sid)
    (hfresh : t - m.last_seen < cfg.staleSeconds) (hsr : pyStrip room = room)
    (hsu : pyStrip user = user) (hr : ¬ room = "") (hu : ¬ user = "") :
    on_join cfg t sid room user false s =
      (s, [Msg.joinConflict room user], JoinRes.conflict) := by
  have hens : ensure_room t room s = s := ensure_room_present t room s v hroom
  have h := on_join_conflict cfg t sid room user s m
    (by rw [hsr]; exact hr) (by rw [hsu]; exact hu)
    (by rw [hsr, hens, hroom]; simp only [Option.some_bind]; rw [hsu]; exact hmem)
    hsid (not_le.mpr hfresh)
  rw [hsr, hsu, hens] at h
  exact h

/-! ### Claim C6 -/

/-- C6: whenever `join(room, name, force=false)` is called while a member with
that name exists in the room bound to a different connection whose last-seen
age is strictly below `staleSeconds`, the call fails with a name conflict
(`join_conflict`) and the room store and connection registry are exactly as
they were before the call. -/
theorem c6_name_conflict_zero_mutation (cfg : Config) (t : Int) (sid room user : String)
    (s : ServerState) (v : RoomState) (m : Member) (hroom : s.rooms room = some v)
    (hmem : dget v.users user = some m) (hsid : ¬ m.sid = sid)
    (hfresh : t - m.last_seen < cfg.staleSeconds) (hsr : pyStrip room = room)
    (hsu : pyStrip user = user) (hr : ¬ room = "") (hu : ¬ user = "") :
    on_join cfg t sid room user false s =
      (s, [Msg.joinConflict room user], JoinRes.conflict) :=
  join_conflict_frame cfg t sid room user s v m hroom hmem hsid hfresh hsr hsu hr hu

/-- C6 witness: with the default tunables, a duplicate join for `alice` from
connection `B` one second after her disconnect (age 1 < staleSeconds 2) yields
exactly a conflict and the untouched state. -/
theorem c6_name_conflict_zero_mutation_witness :
    on_join cfg0 11 "B" "r" "alice" false stateDisc =
      (stateDisc, [Msg.joinConflict "r" "alice"], JoinRes.conflict) :=
  c6_name_conflict_zero_mutation cfg0 11 "B" "r" "alice" stateDisc
    ⟨0, some "alice", [("alice", ⟨"A", 10, 0⟩)],
     [⟨0, "system", none, "alice joined", "r"⟩]⟩
    ⟨"A", 10, 0⟩ (by decide) (by decide) (by decide) (by decide) (by decide) (by decide)
    (by decide) (by decide)

/-! ### Claim C3 -/

/-- C3: evaluating the code on the failing input.  Room `r` holds only the
stale member `alice` (last seen at 0, joined at 0, bound to `A`); a join for
`alice` from connection `B` at time 10 (age 10 ≥ staleSeconds) evicts the sole
holder, which deletes the room inside `remove_user`; the handler then reads
`rooms[room]` again and raises `KeyError`, so the joiner is never bound and
the room is gone instead of the join "completing successfully". -/
theorem c3_sole_member_ghost_eviction_keyerror :
    (on_join cfg0 10 "B" "r" "alice" false stateAlice).2.2 = JoinRes.keyError ∧
    ((on_join cfg0 10 "B" "r" "alice" false stateAlice).1).rooms "r" = none ∧
    memberOf stateAlice "r" "alice" = some ⟨"A", 0, 0⟩ ∧
    (10 : Int) - 0 ≥ cfg0.staleSeconds := by decide

/-! ### Claim C2 -/

/-- C2 counterexample: `join(r, alice, A)` at 0, disconnect of `A` at 10, then
`join(r, alice, B, force=false)` at 11 — within the grace window (1 < 5), but
the duplicate-name age check (1 < staleSeconds 2) applies even though the
connection ids differ, so the join yields a conflict and alice stays bound to
`A`, contradicting the claimed success with a single member bound to `B`. -/
theorem c2_grace_rejoin_counterexample :
    (on_join cfg0 11 "B" "r" "alice" false stateDisc).2.2 = JoinRes.conflict ∧
    memberOf (on_join cfg0 11 "B" "r" "alice" false stateDisc).1 "r" "alice" =
      some ⟨"A", 10, 0⟩ ∧
    (11 : Int) - 10 < cfg0.graceSeconds := by decide

theorem join_from_empty_spec (cfg : Config) (t0 : Int) (sidA : String) :
    ∃ v1, ((on_join cfg t0 sidA "r" "alice" false initState).1).rooms "r" = some v1 ∧
      v1.users = [("alice", ⟨sidA, t0, t0⟩)] ∧ v1.owner = some "alice" ∧
      (∀ c, ((on_join cfg t0 sidA "r" "alice" false initState).1).sid_index c =
        if c = sidA then some ⟨"r", "alice"⟩ else none) := by
  have hens : ensure_room t0 "r" initState =
      ⟨fun r => if r = "r" then some ⟨t0, none, [], []⟩ else none, fun _ => none⟩ := rfl
  have hmem : ((ensure_room t0 (pyStrip "r") initState).rooms (pyStrip "r")).bind
      (fun v => dget v.users (pyStrip "alice")) = none := by
    rw [show pyStrip "r" = "r" from rfl, show pyStrip "alice" = "alice" from rfl, hens]
    simp [dget]
  have hj := on_join_fresh cfg t0 sidA "r" "alice" false initState
    (by decide) (by decide) hmem
  rw [show pyStrip "r" = "r" from rfl, show pyStrip "alice" = "alice" from rfl] at hj
  have hv : (ensure_room t0 "r" initState).rooms "r" = some ⟨t0, none, [], []⟩ := by
    rw [hens]; simp
  rcases joinProceed_spec cfg t0 sidA "r" "alice" (ensure_room t0 "r" initState) [] _ hv with
    ⟨v2, p, hroom2, husers2, howner2, hother2, hidx2, _, _, _⟩
  refine ⟨v2, ?_, ?_, ?_, ?_⟩
  · rw [hj]; exact hroom2
  · rw [husers2]; simp [dset, dget, markRec]
  · rw [howner2]; simp
  · intro c
    rw [hj, hidx2 c]
    rw [hens]

/-- C2 amended: the within-grace rejoin with a new connection id and
`force=false` is governed by the duplicate-name age check even across
different connection ids: when the disconnect-to-rejoin age is below
`staleSeconds`, the join fails with a conflict, leaves alice bound to `A`
with the whole state unchanged, and A's grace check is not superseded — at
`t₁ + graceSeconds` it removes alice and deletes the now-empty room. -/
theorem c2_grace_rejoin_amended (cfg : Config) (t0 t1 t2 : Int) (sidA sidB : String)
    (hAB : ¬ sidA = sidB) (hfresh : t2 - t1 < cfg.staleSeconds) :
    (on_join cfg t2 sidB "r" "alice" false
        (on_disconnect_sync t1 sidA ((on_join cfg t0 sidA "r" "alice" false initState).1)))
      = (on_disconnect_sync t1 sidA ((on_join cfg t0 sidA "r" "alice" false initState).1),
         [Msg.joinConflict "r" "alice"], JoinRes.conflict) ∧
    memberOf (on_disconnect_sync t1 sidA ((on_join cfg t0 sidA "r" "alice" false initState).1))
      "r" "alice" = some ⟨sidA, t1, t0⟩ ∧
    ((cleanup cfg (t1 + cfg.graceSeconds) sidA
        (on_disconnect_sync t1 sidA
          ((on_join cfg t0 sidA "r" "alice" false initState).1))).1).rooms "r" = none := by
  rcases join_from_empty_spec cfg t0 sidA with ⟨v1, hroom1, husers1, howner1, hidx1⟩
  set s1 := (on_join cfg t0 sidA "r" "alice" false initState).1 with hs1
  have hmem1 : dget v1.users "alice" = some ⟨sidA, t0, t0⟩ := by
    rw [husers1]; simp [dget]
  have hdisc : on_disconnect_sync t1 sidA s1 =
      ⟨fun r' => if r' = "r" then
          some { v1 with users := dset v1.users "alice" ⟨sidA, t1, t0⟩ } else s1.rooms r',
       fun c' => if c' = sidA then some ⟨"r", "alice"⟩ else s1.sid_index c'⟩ := by
    unfold on_disconnect_sync
    rw [hidx1 sidA, if_pos rfl]
    exact mark_seen_refresh_spec t1 "r" "alice" sidA s1 v1 ⟨sidA, t0, t0⟩ hroom1 hmem1 rfl
  have husers2 : dset v1.users "alice" ⟨sidA, t1, t0⟩ = [("alice", ⟨sidA, t1, t0⟩)] := by
    rw [husers1]; simp [dset]
  have hroom2 : (on_disconnect_sync t1 sidA s1).rooms "r" =
      some { v1 with users := [("alice", ⟨sidA, t1, t0⟩)] } := by
    rw [hdisc]
    simp [husers2]
  have hmem2 : dget ({ v1 with users := [("alice", ⟨sidA, t1, t0⟩)] } : RoomState).users
      "alice" = some ⟨sidA, t1, t0⟩ := by simp [dget]
  have hidx2 : (on_disconnect_sync t1 sidA s1).sid_index sidA = some ⟨"r", "alice"⟩ := by
    rw [hdisc]; simp
  have hconflict := join_conflict_frame cfg t2 sidB "r" "alice"
    (on_disconnect_sync t1 sidA s1) _ _ hroom2 hmem2
    hAB hfresh rfl rfl (by decide) (by decide)
  refine ⟨hconflict, ?_, ?_⟩
  · unfold memberOf
    rw [hroom2]
    simpa using hmem2
  · -- the grace check is not superseded: it fires, removes alice, deletes the room
    unfold cleanup
    rw [hidx2]
    simp only
    rw [hroom2]
    simp only [Option.some_bind, hmem2]
    rw [if_pos (by omega : t1 + cfg.graceSeconds - t1 ≥ cfg.graceSeconds)]
    have hrm := remove_user_removes "r" "alice" (some sidA) (on_disconnect_sync t1 sidA s1)
      _ ⟨sidA, t1, t0⟩ hroom2 (by simp [dget]) (Or.inr rfl)
    have hrmroom :
        (remove_user "r" "alice" (some sidA) (on_disconnect_sync t1 sidA s1)).rooms "r" =
          none := by
      rw [hrm]
      simp [derase]
    rw [← Option.not_isSome_iff_eq_none]
    rw [add_chat_fst_isSome, transfer_fst_isSome, hrmroom]
    simp

/-- C2 witness: defaults, join at 0 on `A`, disconnect at 10, rejoin on `B` at
11 (age 1 < staleSeconds 2, within graceSeconds 5): conflict, unchanged state,
and the grace check at 15 deletes the room. -/
theorem c2_grace_rejoin_amended_witness :
    (on_join cfg0 11 "B" "r" "alice" false
        (on_disconnect_sync 10 "A" ((on_join cfg0 0 "A" "r" "alice" false initState).1)))
      = (on_disconnect_sync 10 "A" ((on_join cfg0 0 "A" "r" "alice" false initState).1),
         [Msg.joinConflict "r" "alice"], JoinRes.conflict) ∧
    memberOf (on_disconnect_sync 10 "A" ((on_join cfg0 0 "A" "r" "alice" false initState).1))
      "r" "alice" = some ⟨"A", 10, 0⟩ ∧
    ((cleanup cfg0 (10 + cfg0.graceSeconds) "A"
        (on_disconnect_sync 10 "A"
          ((on_join cfg0 0 "A" "r" "alice" false initState).1))).1).rooms "r" = none :=
  c2_grace_rejoin_amended cfg0 0 10 11 "A" "B" (by decide) (by decide)

/-! ### Claim C7 -/

/-- Extractor: whether a join outcome is a successful acknowledgement. -/
def joinOk : JoinRes → Bool
  | JoinRes.ok _ => true
  | _ => false

/-- C7 counterexample: alice joined at 0 (so her stored join timestamp is 0);
a successful rebind of the same display name to the different connection `B`
at time 10 leaves her member record with join timestamp 10, not 0 — the
eviction removed the record and `mark_seen` created a fresh one, so the join
timestamp is not preserved when the connection id differs. -/
theorem c7_join_timestamp_counterexample :
    memberOf stateAliceBob "r" "alice" = some ⟨"A", 0, 0⟩ ∧
    joinOk (on_join cfg0 10 "B" "r" "alice" false stateAliceBob).2.2 = true ∧
    memberOf (on_join cfg0 10 "B" "r" "alice" false stateAliceBob).1 "r" "alice" =
      some ⟨"B", 10, 10⟩ := by decide

/-- C7 amended: when `join` binds a name for which a member already exists,
the member's join timestamp is preserved exactly when the new connection id
equals the stored one (then only connection id and last-seen are written);
when the connection id differs and the join succeeds (stale holder or
`force`, another member keeping the room alive), the old record is removed
and a fresh one is created whose join timestamp is the join time. -/
theorem c7_join_timestamp_amended :
    (∀ cfg : Config, ∀ t : Int, ∀ sid room user : String, ∀ force : Bool,
     ∀ s : ServerState, ∀ v : RoomState, ∀ m : Member,
       s.rooms room = some v → dget v.users user = some m → m.sid = sid →
       pyStrip room = room → pyStrip user = user → ¬ room = "" → ¬ user = "" →
       memberOf (on_join cfg t sid room user force s).1 room user =
         some ⟨sid, t, m.joined_at⟩) ∧
    (∀ cfg : Config, ∀ t : Int, ∀ sid room user w : String, ∀ force : Bool,
     ∀ s : ServerState, ∀ v : RoomState, ∀ m mw : Member,
       s.rooms room = some v → dget v.users user = some m → ¬ m.sid = sid →
       (t - m.last_seen ≥ cfg.staleSeconds ∨ force = true) →
       dget v.users w = some mw → ¬ w = user →
       pyStrip room = room → pyStrip user = user → ¬ room = "" → ¬ user = "" →
       memberOf (on_join cfg t sid room user force s).1 room user =
         some ⟨sid, t, t⟩) := by
  constructor
  · intro cfg t sid room user force s v m hroom hmem hsid hsr hsu hr hu
    have hens : ensure_room t room s = s := ensure_room_present t room s v hroom
    have hj := on_join_refresh cfg t sid room user force s m
      (by rw [hsr]; exact hr) (by rw [hsu]; exact hu)
      (by rw [hsr, hens, hroom]; simp only [Option.some_bind]; rw [hsu]; exact hmem) hsid
    rw [hsr, hsu, hens] at hj
    rw [hj]
    rcases joinProceed_spec cfg t sid room user s [] v hroom with
      ⟨v2, p, hroom2, husers2, _, _, _, _, _, _⟩
    unfold memberOf
    rw [hroom2]
    simp only [Option.some_bind, husers2]
    rw [dget_dset_self]
    simp [markRec, hmem, hsid]
  · intro cfg t sid room user w force s v m mw hroom hmem hsid hstale hw hwne hsr hsu hr hu
    have hens : ensure_room t room s = s := ensure_room_present t room s v hroom
    have hj := on_join_evict cfg t sid room user force s m
      (by rw [hsr]; exact hr) (by rw [hsu]; exact hu)
      (by rw [hsr, hens, hroom]; simp only [Option.some_bind]; rw [hsu]; exact hmem)
      hsid hstale
    rw [hsr, hsu, hens] at hj
    rw [hj]
    have hrm := remove_user_removes room user (some m.sid) s v m hroom hmem (Or.inr rfl)
    have hnil : ¬ derase v.users user = [] := derase_keeps v.users user w mw hw hwne
    have hv2 : (remove_user room user (some m.sid) s).rooms room =
        some { v with users := derase v.users user } := by
      rw [hrm]
      simp [hnil]
    rcases joinProceed_spec cfg t sid room user (remove_user room user (some m.sid) s)
      [Msg.kicked m.sid room "system" "name_taken", Msg.roomsUpdate]
      { v with users := derase v.users user } hv2 with
      ⟨v2, p, hroom2, husers2, _, _, _, _, _, _⟩
    unfold memberOf
    rw [hroom2]
    simp only [Option.some_bind, husers2]
    rw [dget_dset_self]
    simp [markRec, dget_derase_self]

/-- C7 witness: with defaults, a same-connection refresh join preserves
alice's join timestamp 0, and a cross-connection rebind (bob present keeps the
room alive) resets it to the join time 10. -/
theorem c7_join_timestamp_amended_witness :
    memberOf (on_join cfg0 5 "A" "r" "alice" false stateAlice).1 "r" "alice" =
      some ⟨"A", 5, 0⟩ ∧
    memberOf (on_join cfg0 10 "B" "r" "alice" false stateAliceBob).1 "r" "alice" =
      some ⟨"B", 10, 10⟩ :=
  ⟨c7_join_timestamp_amended.1 cfg0 5 "A" "r" "alice" false stateAlice
      ⟨0, some "alice", [("alice", ⟨"A", 0, 0⟩)], [⟨0, "system", none, "alice joined", "r"⟩]⟩
      ⟨"A", 0, 0⟩ (by decide) (by decide) (by decide) (by decide) (by decide) (by decide)
      (by decide),
   c7_join_timestamp_amended.2 cfg0 10 "B" "r" "alice" "bob" false stateAliceBob
      ⟨0, some "alice",
       [("alice", ⟨"A", 0, 0⟩), ("bob", ⟨"C", 1, 1⟩)],
       [⟨0, "system", none, "alice joined", "r"⟩, ⟨1, "system", none, "bob joined", "r"⟩]⟩
      ⟨"A", 0, 0⟩ ⟨"C", 1, 1⟩ (by decide) (by decide) (by decide) (by decide) (by decide)
      (by decide) (by decide) (by decide) (by decide) (by decide)⟩

/-! ### Claim C9 -/

theorem pyListLt_asymm : ∀ x y : List Char, pyListLt x y = true → pyListLt y x = false := by
  intro x
  induction x with
  | nil =>
      intro y h
      cases y with
      | nil => exact absurd h (by simp [pyListLt])
      | cons b bs => simp [pyListLt]
  | cons a as ih =>
      intro y h
      cases y with
      | nil => exact absurd h (by simp [pyListLt])
      | cons b bs =>
          simp only [pyListLt] at h ⊢
          by_cases hab : a.toNat < b.toNat
          · have hba : ¬ b.toNat < a.toNat := by omega
            simp [hba, hab]
          · by_cases hba : b.toNat < a.toNat
            · simp [hab, hba] at h
            · simp only [hab, hba, if_false] at h ⊢
              exact ih bs h

theorem pyListLt_neg_trans : ∀ (a b c : List Char),
    pyListLt b a = false → pyListLt c b = false → pyListLt c a = false := by
  intro a
  induction a with
  | nil =>
      intro b c _ _
      cases c with
      | nil => simp [pyListLt]
      | cons hc tc => simp [pyListLt]
  | cons ha ta ih =>
      intro b c h1 h2
      cases b with
      | nil => exact absurd h1 (by simp [pyListLt])
      | cons hb tb =>
          cases c with
          | nil => exact absurd h2 (by simp [pyListLt])
          | cons hc tc =>
              simp only [pyListLt] at h1 h2 ⊢
              by_cases hba : hb.toNat < ha.toNat
              · simp [hba] at h1
              · by_cases hcb : hc.toNat < hb.toNat
                · simp [hcb] at h2
                · have hca : ¬ hc.toNat < ha.toNat := by omega
                  simp only [hca, if_false]
                  by_cases hac : ha.toNat < hc.toNat
                  · simp [hac]
                  · have hab : ¬ ha.toNat < hb.toNat := by omega
                    have hbc : ¬ hb.toNat < hc.toNat := by omega
                    simp only [hba, hab, if_false] at h1
                    simp only [hcb, hbc, if_false] at h2
                    simp only [hac, if_false]
                    exact ih tb tc h1 h2

instance : IsTotal String (fun a b => pyStrLe a b = true) := ⟨by
  intro a b
  simp only [pyStrLe, pyStrLt, Bool.not_eq_true']
  cases h : pyListLt b.toList a.toList with
  | false => exact Or.inl rfl
  | true => exact Or.inr (pyListLt_asymm _ _ h)⟩

instance : IsTrans String (fun a b => pyStrLe a b = true) := ⟨by
  intro a b c hab hbc
  simp only [pyStrLe, pyStrLt, Bool.not_eq_true'] at hab hbc ⊢
  exact pyListLt_neg_trans _ _ _ hab hbc⟩

theorem joinProceed_ok_sorted (cfg : Config) (t : Int) (sid room user : String)
    (s : ServerState) (msgs : List Msg) (p : JoinedPayload)
    (h : (joinProceed cfg t sid room user s msgs).2.2 = JoinRes.ok p) :
    List.Sorted (fun a b : String => pyStrLe a b = true) p.users := by
  cases hv : s.rooms room with
  | none =>
      rw [show joinProceed cfg t sid room user s msgs = (s, msgs, JoinRes.keyError) from by
        unfold joinProceed; rw [hv]] at h
      exact absurd h (by simp)
  | some v =>
      rcases joinProceed_spec cfg t sid room user s msgs v hv with
        ⟨v2, p0, _, _, _, _, _, hok, hpu, _⟩
      rw [hok] at h
      have hp : p0 = p := by injection h
      subst hp
      rw [hpu]
      exact List.sorted_insertionSort _ _

/-- C9 amended: the membership list returned to a successful joiner is the
room's member display names sorted in ascending code-point (case-sensitive)
lexicographic order — Python's plain `sorted`, with no case folding. -/
theorem c9_joined_users_sorted_amended (cfg : Config) (t : Int)
    (sid roomRaw userRaw : String) (force : Bool) (s : ServerState) (p : JoinedPayload)
    (h : (on_join cfg t sid roomRaw userRaw force s).2.2 = JoinRes.ok p) :
    List.Sorted (fun a b : String => pyStrLe a b = true) p.users := by
  unfold on_join at h
  by_cases hr : pyStrip roomRaw = ""
  · simp [hr] at h
  · by_cases hu : pyStrip userRaw = ""
    · simp [hr, hu] at h
    · simp only [hr, if_false, hu] at h
      cases hmem : ((ensure_room t (pyStrip roomRaw) s).rooms (pyStrip roomRaw)).bind
          (fun v => dget v.users (pyStrip userRaw)) with
      | none =>
          simp only [hmem] at h
          exact joinProceed_ok_sorted _ _ _ _ _ _ _ _ h
      | some ex =>
          simp only [hmem] at h
          by_cases hsid : ex.sid = sid
          · rw [if_pos hsid] at h
            exact joinProceed_ok_sorted _ _ _ _ _ _ _ _ h
          · rw [if_neg hsid] at h
            by_cases hstale : t - ex.last_seen ≥ cfg.staleSeconds ∨ force = true
            · rw [if_pos hstale] at h
              exact joinProceed_ok_sorted _ _ _ _ _ _ _ _ h
            · rw [if_neg hstale] at h
              simp at h

/-- C9 witness: Bob joining alice's room receives `["Bob", "alice"]`, which is
sorted in the code-point order the amended claim states. -/
theorem c9_joined_users_sorted_amended_witness :
    List.Sorted (fun a b : String => pyStrLe a b = true)
      (JoinedPayload.mk "r" 0 ["Bob", "alice"] (some "alice")
        [⟨0, "system", none, "alice joined", "r"⟩,
         ⟨1, "system", none, "Bob joined", "r"⟩]).users :=
  c9_joined_users_sorted_amended cfg0 1 "B" "r" "Bob" false stateAlice
    ⟨"r", 0, ["Bob", "alice"], some "alice",
     [⟨0, "system", none, "alice joined", "r"⟩,
      ⟨1, "system", none, "Bob joined", "r"⟩]⟩ (by decide)

/-- Extractor: the membership list of a successful join acknowledgement. -/
def joinUsers : JoinRes → Option (List String)
  | JoinRes.ok p => some p.users
  | _ => none

/-- C9 counterexample: the membership set containing `alice` and `Bob` (names
differing in letter case) is returned to the joiner as `["Bob", "alice"]` —
Python's case-sensitive `sorted` puts the uppercase name first — which is not
in ascending case-insensitive lexicographic order, contradicting the claim. -/
theorem c9_joined_users_counterexample :
    joinUsers (on_join cfg0 1 "B" "r" "Bob" false stateAlice).2.2 =
      some ["Bob", "alice"] ∧
    ¬ List.Sorted (fun a b : String => pyStrLe (pyLower a) (pyLower b) = true)
      ["Bob", "alice"] := by
  constructor
  · decide
  · intro h
    have h2 := List.rel_of_sorted_cons h "alice" (by simp)
    exact absurd h2 (by decide)

/-! ### Claim C10 -/

theorem sid_for_eq (room toName : String) (s : ServerState) :
    sid_for room toName s = (memberOf s room toName).map (fun u => u.sid) := rfl

/-- C10: for each of the three WebRTC relay events, when `(room, to)` resolves
to a current member (with a real connection id), the full payload is forwarded
verbatim to exactly that member's connection — the handlers never consult the
sender, so this holds whatever room (if any) the sending connection is in —
and when `(room, to)` does not resolve to a member the event produces no
emission at all (silent drop, no error, no state touched). -/
theorem c10_webrtc_relay_by_identity :
    (∀ room toName payload : String, ∀ s : ServerState, ∀ m : Member,
       ¬ room = "" → ¬ toName = "" → memberOf s room toName = some m → ¬ m.sid = "" →
       on_webrtc_offer room toName payload s = [Msg.webrtcOffer m.sid room toName payload] ∧
       on_webrtc_answer room toName payload s = [Msg.webrtcAnswer m.sid room toName payload] ∧
       on_webrtc_ice room toName payload s = [Msg.webrtcIce m.sid room toName payload]) ∧
    (∀ room toName payload : String, ∀ s : ServerState,
       memberOf s room toName = none →
       on_webrtc_offer room toName payload s = [] ∧
       on_webrtc_answer room toName payload s = [] ∧
       on_webrtc_ice room toName payload s = []) := by
  constructor
  · intro room toName payload s m hr ht hm hsid
    have hsf : sid_for room toName s = some m.sid := by
      rw [sid_for_eq, hm]
      rfl
    refine ⟨?_, ?_, ?_⟩
    · unfold on_webrtc_offer
      rw [if_pos ⟨hr, ht⟩, hsf]
      simp [hsid]
    · unfold on_webrtc_answer
      rw [if_pos ⟨hr, ht⟩, hsf]
      simp [hsid]
    · unfold on_webrtc_ice
      rw [if_pos ⟨hr, ht⟩, hsf]
      simp [hsid]
  · intro room toName payload s hm
    have hsf : sid_for room toName s = none := by
      rw [sid_for_eq, hm]
      rfl
    refine ⟨?_, ?_, ?_⟩
    · unfold on_webrtc_offer
      by_cases hc : ¬ room = "" ∧ ¬ toName = ""
      · rw [if_pos hc, hsf]
      · rw [if_neg hc]
    · unfold on_webrtc_answer
      by_cases hc : ¬ room = "" ∧ ¬ toName = ""
      · rw [if_pos hc, hsf]
      · rw [if_neg hc]
    · unfold on_webrtc_ice
      by_cases hc : ¬ room = "" ∧ ¬ toName = ""
      · rw [if_pos hc, hsf]
      · rw [if_neg hc]

/-- C10 witness: in alice's room, an offer addressed to `("r", "alice")` is
forwarded verbatim to connection `A` by all three handlers, and one addressed
to the absent `("r", "bob")` is silently dropped. -/
theorem c10_webrtc_relay_by_identity_witness :
    (on_webrtc_offer "r" "alice" "sdp-payload" stateAlice =
      [Msg.webrtcOffer "A" "r" "alice" "sdp-payload"] ∧
     on_webrtc_answer "r" "alice" "sdp-payload" stateAlice =
      [Msg.webrtcAnswer "A" "r" "alice" "sdp-payload"] ∧
     on_webrtc_ice "r" "alice" "sdp-payload" stateAlice =
      [Msg.webrtcIce "A" "r" "alice" "sdp-payload"]) ∧
    (on_webrtc_offer "r" "bob" "sdp-payload" stateAlice = [] ∧
     on_webrtc_answer "r" "bob" "sdp-payload" stateAlice = [] ∧
     on_webrtc_ice "r" "bob" "sdp-payload" stateAlice = []) :=
  ⟨c10_webrtc_relay_by_identity.1 "r" "alice" "sdp-payload" stateAlice ⟨"A", 0, 0⟩
     (by decide) (by decide) (by decide) (by decide),
   c10_webrtc_relay_by_identity.2 "r" "bob" "sdp-payload" stateAlice (by decide)⟩

/-! ### Claim C8 -/

theorem add_chat_len_le (cfg : Config) (hT : cfg.chatTrimTo ≤ cfg.chatMax)
    (h0 : 0 < cfg.chatTrimTo) (t : Int) (room mtype : String) (user : Option String)
    (text : String) (s : ServerState) :
    ∀ v', ((add_chat cfg t room mtype user text s).1).rooms room = some v' →
      v'.chat.length ≤ cfg.chatMax := by
  intro v' hv'
  unfold add_chat at hv'
  cases hv : s.rooms room with
  | none =>
      rw [hv] at hv'
      simp only at hv'
      rw [hv] at hv'
      exact Option.noConfusion hv'
  | some v =>
      rw [hv] at hv'
      simp only [if_pos rfl] at hv'
      have hv'' := Option.some.inj hv'
      subst hv''
      simp only
      by_cases hgt : (v.chat ++ [(⟨t, mtype, user, pyTakeStr 500 text, room⟩ : ChatMsg)]).length
          > cfg.chatMax
      · rw [if_pos hgt]
        exact le_trans (pyLastSlice_length_le cfg.chatTrimTo _ (by omega)) hT
      · rw [if_neg hgt]
        omega

/-- C8: with a trim mark no larger than the high-water mark (and positive, as
in the defaults 160 ≤ 200), (1) any sequence of chat appends to a room keeps
its log length at most the high-water mark, and (2) whenever an append
triggers truncation, the retained log is exactly the most recent
`chatTrimTo` entries of the post-append (pre-truncation) log, in their
original order (a suffix obtained by dropping the oldest entries). -/
theorem c8_chat_bound_and_truncation (cfg : Config) (hT : cfg.chatTrimTo ≤ cfg.chatMax)
    (h0 : 0 < cfg.chatTrimTo) :
    (∀ room : String, ∀ inputs : List (Int × String × Option String × String),
     ∀ s : ServerState,
       (∀ v, s.rooms room = some v → v.chat.length ≤ cfg.chatMax) →
       ∀ v', ((inputs.foldl
           (fun st i => (add_chat cfg i.1 room i.2.1 i.2.2.1 i.2.2.2 st).1) s).rooms room)
           = some v' →
         v'.chat.length ≤ cfg.chatMax) ∧
    (∀ t : Int, ∀ room mtype : String, ∀ user : Option String, ∀ text : String,
     ∀ s : ServerState, ∀ v : RoomState,
       s.rooms room = some v → v.chat.length + 1 > cfg.chatMax →
       ∀ v', ((add_chat cfg t room mtype user text s).1).rooms room = some v' →
         v'.chat = (v.chat ++ [(⟨t, mtype, user, pyTakeStr 500 text, room⟩ : ChatMsg)]).drop
             (v.chat.length + 1 - cfg.chatTrimTo) ∧
         v'.chat.length = cfg.chatTrimTo) := by
  constructor
  · intro room inputs
    induction inputs with
    | nil => intro s hlen v' hv'; exact hlen v' hv'
    | cons i rest ih =>
        intro s hlen v' hv'
        simp only [List.foldl_cons] at hv'
        exact ih ((add_chat cfg i.1 room i.2.1 i.2.2.1 i.2.2.2 s).1)
          (add_chat_len_le cfg hT h0 i.1 room i.2.1 i.2.2.1 i.2.2.2 s) v' hv'
  · intro t room mtype user text s v hv hgt v' hv'
    unfold add_chat at hv'
    rw [hv] at hv'
    simp only [if_pos rfl] at hv'
    have hlen1 : (v.chat ++ [(⟨t, mtype, user, pyTakeStr 500 text, room⟩ : ChatMsg)]).length
        = v.chat.length + 1 := by simp
    have hgt' : (v.chat ++ [(⟨t, mtype, user, pyTakeStr 500 text, room⟩ : ChatMsg)]).length
        > cfg.chatMax := by omega
    rw [if_pos hgt'] at hv'
    have hv'' := Option.some.inj hv'
    subst hv''
    simp only
    rw [pyLastSlice_eq_drop cfg.chatTrimTo _ (by omega)]
    constructor
    · rw [hlen1]
    · rw [List.length_drop, hlen1]
      omega

/-- A small tunable set (high-water 2, low-water 1) exercising truncation. -/
def cfgSmall : Config := ⟨5, 2, 2, 1⟩

/-- A room state whose chat already sits at the high-water mark. -/
def sChat : ServerState :=
  ⟨fun r => if r = "r" then
      some ⟨0, some "a", [("a", ⟨"A", 0, 0⟩)],
            [⟨0, "user", some "a", "hi", "r"⟩, ⟨1, "user", some "a", "yo", "r"⟩]⟩
    else none,
   fun _ => none⟩

/-- C8 witness: appending a third message to a full log (2 = high-water mark)
keeps the bound and retains exactly the most recent entry (low-water 1). -/
theorem c8_chat_bound_and_truncation_witness :
    (RoomState.mk 0 (some "a") [("a", ⟨"A", 0, 0⟩)]
        [⟨2, "user", some "a", "third", "r"⟩]).chat.length ≤ cfgSmall.chatMax ∧
    ((RoomState.mk 0 (some "a") [("a", ⟨"A", 0, 0⟩)]
        [⟨2, "user", some "a", "third", "r"⟩]).chat =
      (([⟨0, "user", some "a", "hi", "r"⟩,
         ⟨1, "user", some "a", "yo", "r"⟩] : List ChatMsg) ++
        [(⟨2, "user", some "a", pyTakeStr 500 "third", "r"⟩ : ChatMsg)]).drop
        (([⟨0, "user", some "a", "hi", "r"⟩,
           ⟨1, "user", some "a", "yo", "r"⟩] : List ChatMsg).length + 1 - cfgSmall.chatTrimTo) ∧
     (RoomState.mk 0 (some "a") [("a", ⟨"A", 0, 0⟩)]
        [⟨2, "user", some "a", "third", "r"⟩]).chat.length = cfgSmall.chatTrimTo) :=
  ⟨(c8_chat_bound_and_truncation cfgSmall (by decide) (by decide)).1 "r"
      [((2 : Int), "user", some "a", "third")] sChat
      (fun v hv => by
        have h2 : some (RoomState.mk 0 (some "a") [("a", ⟨"A", 0, 0⟩)]
            [⟨0, "user", some "a", "hi", "r"⟩, ⟨1, "user", some "a", "yo", "r"⟩]) = some v :=
          hv
        rw [← Option.some.inj h2]
        decide)
      (RoomState.mk 0 (some "a") [("a", ⟨"A", 0, 0⟩)]
        [⟨2, "user", some "a", "third", "r"⟩]) (by decide),
   (c8_chat_bound_and_truncation cfgSmall (by decide) (by decide)).2 2 "r" "user" (some "a")
      "third" sChat
      (RoomState.mk 0 (some "a") [("a", ⟨"A", 0, 0⟩)]
        [⟨0, "user", some "a", "hi", "r"⟩, ⟨1, "user", some "a", "yo", "r"⟩])
      (by decide) (by decide)
      (RoomState.mk 0 (some "a") [("a", ⟨"A", 0, 0⟩)]
        [⟨2, "user", some "a", "third", "r"⟩]) (by decide)⟩

/-! ### Claim C5 -/

theorem markRec_fields (t : Int) (c : String) (o : Option Member) :
    markRec t c o = ⟨c, t, (markRec t c o).joined_at⟩ := by
  cases o with
  | none => rfl
  | some cur =>
      by_cases h : cur.sid = c
      · simp [markRec, h]
      · simp [markRec, h]

theorem mark_seen_idx_self (t : Int) (r u c : String) (s : ServerState) :
    (mark_seen t r u c s).sid_index c = some ⟨r, u⟩ := by
  cases hv : s.rooms r with
  | some v => rw [mark_seen_eq t r u c s v hv]; simp
  | none => rw [mark_seen_eq_absent t r u c s hv]; simp

theorem mark_seen_member_self (t : Int) (r u c : String) (s : ServerState) :
    ∃ j, memberOf (mark_seen t r u c s) r u = some ⟨c, t, j⟩ := by
  cases hv : s.rooms r with
  | some v =>
      rw [mark_seen_eq t r u c s v hv]
      refine ⟨(markRec t c (dget v.users u)).joined_at, ?_⟩
      unfold memberOf
      simp only [eq_self_iff_true, if_true, Option.some_bind]
      rw [dget_dset_self]
      exact congrArg some (markRec_fields t c _)
  | none =>
      rw [mark_seen_eq_absent t r u c s hv]
      exact ⟨t, by unfold memberOf; simp [dget]⟩

/-- C5: the grace check scheduled by a disconnect is a no-op — no member
removal, no owner re-election, no peer-left and no chat entry (it returns the
state unchanged with no emission) — (1) whenever the connection's registry
entry has been superseded (as a successful same-name rebind leaves it, part
3), and (2) after `disconnect(c)` at `t₁` followed by `heartbeat(c)` at a
strictly later time within the grace window, when the check fires at
`t₁ + graceSeconds`; (3) a successful forced/stale rebind of the same display
name purges the old connection's registry entry, so its grace check aborts
by (1). -/
theorem c5_grace_check_noop :
    (∀ cfg : Config, ∀ t : Int, ∀ c : String, ∀ s : ServerState,
       s.sid_index c = none → cleanup cfg t c s = (s, [])) ∧
    (∀ cfg : Config, ∀ t1 th : Int, ∀ c r u : String, ∀ s0 : ServerState,
       s0.sid_index c = some ⟨r, u⟩ → t1 < th → th ≤ t1 + cfg.graceSeconds →
       cleanup cfg (t1 + cfg.graceSeconds) c
           (on_heartbeat th c (on_disconnect_sync t1 c s0)) =
         (on_heartbeat th c (on_disconnect_sync t1 c s0), [])) ∧
    (∀ cfg : Config, ∀ t : Int, ∀ sid room user w : String, ∀ force : Bool,
     ∀ s : ServerState, ∀ v : RoomState, ∀ m mw : Member,
       s.rooms room = some v → dget v.users user = some m → ¬ m.sid = sid →
       (t - m.last_seen ≥ cfg.staleSeconds ∨ force = true) →
       dget v.users w = some mw → ¬ w = user →
       s.sid_index m.sid = some ⟨room, user⟩ →
       pyStrip room = room → pyStrip user = user → ¬ room = "" → ¬ user = "" →
       ((on_join cfg t sid room user force s).1).sid_index m.sid = none) := by
  refine ⟨?_, ?_, ?_⟩
  · intro cfg t c s h
    unfold cleanup
    rw [h]
  · intro cfg t1 th c r u s0 hidx0 hlt hle
    have hidx1 : (on_disconnect_sync t1 c s0).sid_index c = some ⟨r, u⟩ := by
      unfold on_disconnect_sync
      rw [hidx0]
      exact mark_seen_idx_self t1 r u c s0
    have hhb : on_heartbeat th c (on_disconnect_sync t1 c s0) =
        mark_seen th r u c (on_disconnect_sync t1 c s0) := by
      unfold on_heartbeat
      rw [hidx1]
    have hidx2 : (on_heartbeat th c (on_disconnect_sync t1 c s0)).sid_index c =
        some ⟨r, u⟩ := by
      rw [hhb]
      exact mark_seen_idx_self th r u c (on_disconnect_sync t1 c s0)
    rcases (by rw [hhb]; exact mark_seen_member_self th r u c (on_disconnect_sync t1 c s0) :
      ∃ j, memberOf (on_heartbeat th c (on_disconnect_sync t1 c s0)) r u =
        some ⟨c, th, j⟩) with ⟨j, hm2⟩
    unfold cleanup
    rw [hidx2]
    simp only
    unfold memberOf at hm2
    rw [hm2]
    simp only
    rw [if_neg (by omega : ¬ t1 + cfg.graceSeconds - th ≥ cfg.graceSeconds)]
  · intro cfg t sid room user w force s v m mw hroom hmem hsid hstale hw hwne hidx
      hsr hsu hr hu
    have hens : ensure_room t room s = s := ensure_room_present t room s v hroom
    have hj := on_join_evict cfg t sid room user force s m
      (by rw [hsr]; exact hr) (by rw [hsu]; exact hu)
      (by rw [hsr, hens, hroom]; simp only [Option.some_bind]; rw [hsu]; exact hmem)
      hsid hstale
    rw [hsr, hsu, hens] at hj
    rw [hj]
    have hrm := remove_user_removes room user (some m.sid) s v m hroom hmem (Or.inr rfl)
    have hnil : ¬ derase v.users user = [] := derase_keeps v.users user w mw hw hwne
    have hv2 : (remove_user room user (some m.sid) s).rooms room =
        some { v with users := derase v.users user } := by
      rw [hrm]
      simp [hnil]
    rcases joinProceed_spec cfg t sid room user (remove_user room user (some m.sid) s)
      [Msg.kicked m.sid room "system" "name_taken", Msg.roomsUpdate]
      { v with users := derase v.users user } hv2 with
      ⟨v2, p, _, _, _, _, hidx2, _, _, _⟩
    rw [hidx2 m.sid, if_neg hsid, hrm]
    simp only [pruneIdx, hidx]
    simp

/-- C5 witness: a grace check for an unknown connection aborts; after
disconnect at 10 and heartbeat at 12, the check firing at 15 returns the
state unchanged with no emission; and alice's stale rebind (bob present)
purges the registry entry for her old connection `A`. -/
theorem c5_grace_check_noop_witness :
    cleanup cfg0 20 "X" stateAlice = (stateAlice, []) ∧
    cleanup cfg0 (10 + cfg0.graceSeconds) "A"
        (on_heartbeat 12 "A" (on_disconnect_sync 10 "A" stateAlice)) =
      (on_heartbeat 12 "A" (on_disconnect_sync 10 "A" stateAlice), []) ∧
    ((on_join cfg0 10 "B" "r" "alice" false stateAliceBob).1).sid_index "A" = none :=
  ⟨c5_grace_check_noop.1 cfg0 20 "X" stateAlice (by decide),
   c5_grace_check_noop.2.1 cfg0 10 12 "A" "r" "alice" stateAlice (by decide) (by decide)
     (by decide),
   c5_grace_check_noop.2.2 cfg0 10 "B" "r" "alice" "bob" false stateAliceBob
     ⟨0, some "alice",
      [("alice", ⟨"A", 0, 0⟩), ("bob", ⟨"C", 1, 1⟩)],
      [⟨0, "system", none, "alice joined", "r"⟩, ⟨1, "system", none, "bob joined", "r"⟩]⟩
     ⟨"A", 0, 0⟩ ⟨"C", 1, 1⟩ (by decide) (by decide) (by decide) (by decide) (by decide)
     (by decide) (by decide) (by decide) (by decide) (by decide) (by decide)⟩

/-! ### Claims C1 and C4: the inductive invariants -/

/-- A room record is well-formed: non-empty membership and exactly one owner
who is a current member. -/
def RoomOK (v : RoomState) : Prop :=
  ¬ v.users = [] ∧ ∃ w, v.owner = some w ∧ (dget v.users w).isSome

/-- Every room in the store is well-formed. -/
def RoomsOK (s : ServerState) : Prop :=
  ∀ r v, s.rooms r = some v → RoomOK v

/-- Every registry entry names an existing member whose current connection id
is the entry's key. -/
def IdxOK (s : ServerState) : Prop :=
  ∀ c meta, s.sid_index c = some meta →
    ∃ v m, s.rooms meta.room = some v ∧ dget v.users meta.user = some m ∧ m.sid = c

/-- The joint store/registry invariant. -/
def StoreInv (s : ServerState) : Prop := RoomsOK s ∧ IdxOK s

theorem inv_init : StoreInv initState := by
  constructor
  · intro r v hv
    exact Option.noConfusion hv
  · intro c meta h
    exact Option.noConfusion h

theorem inv_add_chat (cfg : Config) (t : Int) (room mtype : String) (user : Option String)
    (text : String) (s : ServerState) (hInv : StoreInv s) :
    StoreInv ((add_chat cfg t room mtype user text s).1) := by
  rcases hInv with ⟨hR, hI⟩
  constructor
  · intro r v hv
    have hS := add_chat_fst_isSome cfg t room mtype user text s r
    rw [hv] at hS
    cases hv0 : s.rooms r with
    | none => rw [hv0] at hS; exact absurd hS.symm (by simp)
    | some v0 =>
        have hU := add_chat_fst_users cfg t room mtype user text s r
        have hO := add_chat_fst_owner cfg t room mtype user text s r
        simp only [usersOf, ownerOf, hv, hv0, Option.some_bind] at hU hO
        rcases hR r v0 hv0 with ⟨hne, w, hw, hws⟩
        refine ⟨by rw [hU]; exact hne, w, ?_, ?_⟩
        · rw [← hO] at hw
          exact hw
        · rw [hU]; exact hws
  · intro c meta h
    rw [add_chat_fst_idx] at h
    rcases hI c meta h with ⟨v0, m0, hv0, hm0, hs0⟩
    have hS := add_chat_fst_isSome cfg t room mtype user text s meta.room
    rw [hv0] at hS
    rcases Option.isSome_iff_exists.mp (by rw [hS]; rfl : (((add_chat cfg t room mtype user
        text s).1).rooms meta.room).isSome = true) with ⟨v1, hv1⟩
    have hU := add_chat_fst_users cfg t room mtype user text s meta.room
    simp only [usersOf, hv1, hv0] at hU
    refine ⟨v1, m0, hv1, ?_, hs0⟩
    rw [hU]
    exact hm0

theorem inv_mark_seen_refresh (t : Int) (r u c : String) (s : ServerState) (v : RoomState)
    (m : Member) (hInv : StoreInv s) (hv : s.rooms r = some v) (hm : dget v.users u = some m)
    (hsid : m.sid = c) : StoreInv (mark_seen t r u c s) := by
  rcases hInv with ⟨hR, hI⟩
  rw [mark_seen_refresh_spec t r u c s v m hv hm hsid]
  constructor
  · intro r' v' hv'
    have hv2 : (if r' = r then
        some { v with users := dset v.users u ⟨c, t, m.joined_at⟩ }
      else s.rooms r') = some v' := hv'
    by_cases hr : r' = r
    · rw [if_pos hr] at hv2
      have hvv := Option.some.inj hv2
      subst hvv
      rcases hR r v hv with ⟨hne, w, hw, hws⟩
      exact ⟨dset_ne_nil _ _ _, w, hw, dget_isSome_dset _ _ _ _ hws⟩
    · rw [if_neg hr] at hv2
      exact hR r' v' hv2
  · intro c' meta h
    have h2 : (if c' = c then some (⟨r, u⟩ : SidMeta) else s.sid_index c') = some meta := h
    by_cases hc : c' = c
    · rw [if_pos hc] at h2
      have hmeta := Option.some.inj h2
      subst hmeta
      refine ⟨{ v with users := dset v.users u ⟨c, t, m.joined_at⟩ },
        ⟨c, t, m.joined_at⟩, ?_, ?_, hc.symm⟩
      · show (if r = r then some { v with users := dset v.users u ⟨c, t, m.joined_at⟩ }
          else s.rooms r) = _
        rw [if_pos rfl]
      · exact dget_dset_self _ _ _
    · rw [if_neg hc] at h2
      rcases hI c' meta h2 with ⟨v0, m0, hv0, hm0, hs0⟩
      by_cases hr : meta.room = r
      · rw [hr] at hv0
        have hvv := Option.some.inj (hv0.symm.trans hv)
        subst hvv
        by_cases hu : meta.user = u
        · rw [hu] at hm0
          have hmm := Option.some.inj (hm0.symm.trans hm)
          subst hmm
          exact absurd (hs0.symm.trans hsid) hc
        · refine ⟨{ v0 with users := dset v0.users u ⟨c, t, m.joined_at⟩ }, m0, ?_, ?_, hs0⟩
          · show (if meta.room = r then
              some { v0 with users := dset v0.users u ⟨c, t, m.joined_at⟩ }
              else s.rooms meta.room) = _
            rw [if_pos hr]
          · rw [dget_dset_ne _ _ _ _ hu]
            exact hm0
      · refine ⟨v0, m0, ?_, hm0, hs0⟩
        show (if meta.room = r then
            some { v with users := dset v.users u ⟨c, t, m.joined_at⟩ }
            else s.rooms meta.room) = _
        rw [if_neg hr]
        exact hv0

theorem remove_user_inv_parts (room user : String) (e : Option String) (s : ServerState)
    (hInv : StoreInv s) :
    (∀ r v, (remove_user room user e s).rooms r = some v → ¬ v.users = []) ∧
    IdxOK (remove_user room user e s) ∧
    (∀ r v, (remove_user room user e s).rooms r = some v → ¬ r = room → RoomOK v) := by
  rcases hInv with ⟨hR, hI⟩
  rcases remove_user_cases room user e s with h | ⟨v, u, hv, hu, heq⟩
  · rw [h]
    exact ⟨fun r v hv => (hR r v hv).1, hI, fun r v hv _ => hR r v hv⟩
  · rw [heq]
    refine ⟨?_, ?_, ?_⟩
    · intro r v' hv'
      have hv2 : (if r = room then
          (if derase v.users user = [] then none
           else some { v with users := derase v.users user })
        else s.rooms r) = some v' := hv'
      by_cases hr : r = room
      · rw [if_pos hr] at hv2
        by_cases hnil : derase v.users user = []
        · rw [if_pos hnil] at hv2
          exact Option.noConfusion hv2
        · rw [if_neg hnil] at hv2
          have := Option.some.inj hv2
          subst this
          exact hnil
      · rw [if_neg hr] at hv2
        exact (hR r v' hv2).1
    · intro c meta h
      have h2 : (match s.sid_index c with
        | none => none
        | some meta0 =>
            if meta0.room = room ∧ meta0.user = user then none else some meta0) =
          some meta := h
      cases hc : s.sid_index c with
      | none => rw [hc] at h2; exact Option.noConfusion h2
      | some meta0 =>
          rw [hc] at h2
          simp only at h2
          by_cases hmm : meta0.room = room ∧ meta0.user = user
          · rw [if_pos hmm] at h2
            exact Option.noConfusion h2
          · rw [if_neg hmm] at h2
            have hmeta := Option.some.inj h2
            subst hmeta
            rcases hI c meta0 hc with ⟨v0, m0, hv0, hm0, hs0⟩
            by_cases hr0 : meta0.room = room
            · have hu0 : ¬ meta0.user = user := fun hx => hmm ⟨hr0, hx⟩
              rw [hr0] at hv0
              have hvv := Option.some.inj (hv0.symm.trans hv)
              subst hvv
              have hnil : ¬ derase v0.users user = [] :=
                derase_keeps v0.users user meta0.user m0 hm0 hu0
              refine ⟨{ v0 with users := derase v0.users user }, m0, ?_, ?_, hs0⟩
              · show (if meta0.room = room then
                  (if derase v0.users user = [] then none
                   else some { v0 with users := derase v0.users user })
                  else s.rooms meta0.room) = _
                rw [if_pos hr0, if_neg hnil]
              · rw [dget_derase_ne _ _ _ hu0]
                exact hm0
            · refine ⟨v0, m0, ?_, hm0, hs0⟩
              show (if meta0.room = room then
                  (if derase v.users user = [] then none
                   else some { v with users := derase v.users user })
                  else s.rooms meta0.room) = _
              rw [if_neg hr0]
              exact hv0
    · intro r v' hv' hr
      have hv2 : (if r = room then
          (if derase v.users user = [] then none
           else some { v with users := derase v.users user })
        else s.rooms r) = some v' := hv'
      rw [if_neg hr] at hv2
      exact hR r v' hv2

theorem transfer_inv_restore (cfg : Config) (t : Int) (room : String) (s : ServerState)
    (hMem : ∀ r v, s.rooms r = some v → ¬ v.users = [])
    (hIdx : IdxOK s)
    (hOther : ∀ r v, s.rooms r = some v → ¬ r = room → RoomOK v) :
    StoreInv ((transfer_owner_if_needed cfg t room s).1) := by
  constructor
  · intro r v hv
    by_cases hr : r = room
    · subst hr
      have hS := transfer_fst_isSome cfg t r s r
      rw [hv] at hS
      cases hv0 : s.rooms r with
      | none => rw [hv0] at hS; exact absurd hS.symm (by simp)
      | some v0 =>
          have hU := transfer_fst_users cfg t r s r
          simp only [usersOf, hv, hv0] at hU
          refine ⟨by rw [hU]; exact hMem r v0 hv0, ?_⟩
          exact transfer_restores cfg t r s (fun w hw => hMem r w hw) v hv
    · rw [transfer_fst_rooms_other cfg t room s r hr] at hv
      exact hOther r v hv hr
  · intro c meta h
    rw [transfer_fst_idx] at h
    rcases hIdx c meta h with ⟨v0, m0, hv0, hm0, hs0⟩
    have hS := transfer_fst_isSome cfg t room s meta.room
    rw [hv0] at hS
    rcases Option.isSome_iff_exists.mp (by rw [hS]; rfl :
      (((transfer_owner_if_needed cfg t room s).1).rooms meta.room).isSome = true) with
      ⟨v1, hv1⟩
    have hU := transfer_fst_users cfg t room s meta.room
    simp only [usersOf, hv1, hv0] at hU
    refine ⟨v1, m0, hv1, ?_, hs0⟩
    rw [hU]
    exact hm0

theorem joinProceed_inv (cfg : Config) (t : Int) (sid room user : String) (s : ServerState)
    (msgs : List Msg)
    (H1 : ∀ r v, s.rooms r = some v → ¬ r = room → RoomOK v)
    (H3 : ∀ v w, s.rooms room = some v → v.owner = some w →
      (w = user ∨ (dget v.users w).isSome))
    (H4 : ∀ v m, s.rooms room = some v → dget v.users user = some m → m.sid = sid)
    (HI : IdxOK s) :
    StoreInv ((joinProceed cfg t sid room user s msgs).1) := by
  cases hv : s.rooms room with
  | none =>
      rw [show (joinProceed cfg t sid room user s msgs).1 = s from by
        unfold joinProceed; rw [hv]]
      constructor
      · intro r v hvr
        by_cases hr : r = room
        · subst hr; rw [hv] at hvr; exact Option.noConfusion hvr
        · exact H1 r v hvr hr
      · exact HI
  | some v =>
      rcases joinProceed_spec cfg t sid room user s msgs v hv with
        ⟨v2, p, hroom2, husers2, howner2, hother2, hidx2, _, _, _⟩
      constructor
      · intro r v' hv'
        by_cases hr : r = room
        · subst hr
          have hvv := Option.some.inj (hroom2.symm.trans hv')
          subst hvv
          refine ⟨by rw [husers2]; exact dset_ne_nil _ _ _, ?_⟩
          by_cases hcond : (v.users.isEmpty || v.owner.isNone) = true
          · rw [if_pos hcond] at howner2
            refine ⟨user, howner2, ?_⟩
            rw [husers2, dget_dset_self]
            rfl
          · rw [if_neg hcond] at howner2
            cases ho : v.owner with
            | none =>
                exfalso
                apply hcond
                rw [ho]
                simp
            | some w =>
                rw [ho] at howner2
                rcases H3 v w hv ho with hwu | hws
                · subst hwu
                  refine ⟨w, howner2, ?_⟩
                  rw [husers2, dget_dset_self]
                  rfl
                · refine ⟨w, howner2, ?_⟩
                  rw [husers2]
                  exact dget_isSome_dset _ _ _ _ hws
        · rw [hother2 r hr] at hv'
          exact H1 r v' hv' hr
      · intro c meta h
        rw [hidx2 c] at h
        by_cases hc : c = sid
        · rw [if_pos hc] at h
          have hmeta := Option.some.inj h
          subst hmeta
          refine ⟨v2, markRec t sid (dget v.users user), hroom2, ?_, ?_⟩
          · rw [husers2]
            exact dget_dset_self _ _ _
          · rw [markRec_fields]
            exact hc.symm
        · rw [if_neg hc] at h
          rcases HI c meta h with ⟨v0, m0, hv0, hm0, hs0⟩
          by_cases hr : meta.room = room
          · rw [hr] at hv0
            have hvv := Option.some.inj (hv0.symm.trans hv)
            subst hvv
            by_cases hu : meta.user = user
            · rw [hu] at hm0
              exact absurd (hs0.symm.trans (H4 v0 m0 hv hm0)) hc
            · refine ⟨v2, m0, by rw [hr]; exact hroom2, ?_, hs0⟩
              rw [husers2, dget_dset_ne _ _ _ _ hu]
              exact hm0
          · exact ⟨v0, m0, by rw [hother2 meta.room hr]; exact hv0, hm0, hs0⟩

theorem ensured_member_some (t : Int) (room user : String) (s : ServerState) (ex : Member)
    (h : ((ensure_room t room s).rooms room).bind (fun v => dget v.users user) = some ex) :
    ∃ v, s.rooms room = some v ∧ dget v.users user = some ex := by
  cases hv : s.rooms room with
  | some v =>
      rw [ensure_room_present t room s v hv, hv] at h
      simp only [Option.some_bind] at h
      exact ⟨v, rfl, h⟩
  | none =>
      exfalso
      have h3 : (ensure_room t room s).rooms room =
          some (⟨t, none, [], []⟩ : RoomState) := by
        unfold ensure_room
        rw [hv]
        exact if_pos rfl
      rw [h3] at h
      simp only [Option.some_bind] at h
      simp [dget] at h

theorem inv_on_heartbeat (t : Int) (c : String) (s : ServerState) (h : StoreInv s) :
    StoreInv (on_heartbeat t c s) := by
  unfold on_heartbeat
  cases hc : s.sid_index c with
  | none => exact h
  | some meta =>
      rcases h.2 c meta hc with ⟨v, m, hv, hm, hs⟩
      exact inv_mark_seen_refresh t meta.room meta.user c s v m h hv hm hs

theorem inv_on_disconnect (t : Int) (c : String) (s : ServerState) (h : StoreInv s) :
    StoreInv (on_disconnect_sync t c s) := by
  unfold on_disconnect_sync
  cases hc : s.sid_index c with
  | none => exact h
  | some meta =>
      rcases h.2 c meta hc with ⟨v, m, hv, hm, hs⟩
      exact inv_mark_seen_refresh t meta.room meta.user c s v m h hv hm hs

theorem inv_on_leave (cfg : Config) (t : Int) (sid : String) (s : ServerState)
    (h : StoreInv s) : StoreInv ((on_leave cfg t sid s).1) := by
  unfold on_leave
  cases hc : s.sid_index sid with
  | none => exact h
  | some meta =>
      rcases remove_user_inv_parts meta.room meta.user (some sid) s h with ⟨hMem, hIdx, hOther⟩
      exact inv_add_chat cfg t meta.room "system" none (meta.user ++ " left") _
        (transfer_inv_restore cfg t meta.room _ hMem hIdx hOther)

theorem inv_cleanup (cfg : Config) (t : Int) (sid : String) (s : ServerState)
    (h : StoreInv s) : StoreInv ((cleanup cfg t sid s).1) := by
  unfold cleanup
  split
  · exact h
  · split
    · exact h
    · split
      · rename_i m heq1 x2 current heq2 hg
        rcases remove_user_inv_parts m.room m.user (some current.sid) s h with
          ⟨hMem, hIdx, hOther⟩
        exact inv_add_chat cfg t m.room "system" none (m.user ++ " left") _
          (transfer_inv_restore cfg t m.room _ hMem hIdx hOther)
      · exact h

theorem inv_on_kick (cfg : Config) (t : Int) (sid roomRaw targetRaw : String)
    (s : ServerState) (h : StoreInv s) :
    StoreInv ((on_kick_user cfg t sid roomRaw targetRaw s).1) := by
  unfold on_kick_user
  cases hc : s.sid_index sid with
  | none => exact h
  | some meta =>
      by_cases h1 : pyStrip roomRaw = "" ∨ pyStrip targetRaw = ""
      · simp only [if_pos h1]; exact h
      · simp only [if_neg h1]
        by_cases h2 : ¬ meta.room = pyStrip roomRaw
        · simp only [if_pos h2]; exact h
        · simp only [if_neg h2]
          by_cases h3 : ¬ is_admin_sid sid s = true
          · simp only [if_pos h3]; exact h
          · simp only [if_neg h3]
            by_cases h4 : pyStrip targetRaw = meta.user
            · simp only [if_pos h4]; exact h
            · simp only [if_neg h4]
              cases hex : (s.rooms (pyStrip roomRaw)).bind
                  (fun v => dget v.users (pyStrip targetRaw)) with
              | none => exact h
              | some ex =>
                  rcases remove_user_inv_parts (pyStrip roomRaw) (pyStrip targetRaw)
                    (some ex.sid) s h with ⟨hMem, hIdx, hOther⟩
                  exact inv_add_chat cfg t (pyStrip roomRaw) "system" none
                    (pyStrip targetRaw ++ " was kicked by " ++ meta.user) _
                    (transfer_inv_restore cfg t (pyStrip roomRaw) _ hMem hIdx hOther)

theorem ensure_room_inv_parts (t : Int) (room : String) (s : ServerState) (h : StoreInv s) :
    (∀ r v, (ensure_room t room s).rooms r = some v → ¬ r = room → RoomOK v) ∧
    (∀ v w, (ensure_room t room s).rooms room = some v → v.owner = some w →
      (dget v.users w).isSome) ∧
    IdxOK (ensure_room t room s) := by
  cases hv : s.rooms room with
  | some v0 =>
      rw [ensure_room_present t room s v0 hv]
      exact ⟨fun r v hvr _ => h.1 r v hvr,
        fun v w hv2 hw => by
          rcases h.1 room v hv2 with ⟨-, w0, hw0, hmem⟩
          rw [hw] at hw0
          exact (Option.some.inj hw0) ▸ hmem,
        h.2⟩
  | none =>
      refine ⟨?_, ?_, ?_⟩
      · intro r v hvr hne
        have hvr2 : (if r = room then some (⟨t, none, [], []⟩ : RoomState)
            else s.rooms r) = some v := by
          have h3 : (ensure_room t room s).rooms r =
              (if r = room then some (⟨t, none, [], []⟩ : RoomState) else s.rooms r) := by
            unfold ensure_room
            rw [hv]
          rw [← h3]
          exact hvr
        rw [if_neg hne] at hvr2
        exact h.1 r v hvr2
      · intro v w hv2 hw
        have hv3 : (ensure_room t room s).rooms room =
            some (⟨t, none, [], []⟩ : RoomState) := by
          unfold ensure_room
          rw [hv]
          exact if_pos rfl
        rw [hv3] at hv2
        obtain rfl : (⟨t, none, [], []⟩ : RoomState) = v := Option.some.inj hv2
        exact Option.noConfusion hw
      · intro c meta hc
        have hc2 : s.sid_index c = some meta := by
          have h3 : (ensure_room t room s).sid_index c = s.sid_index c := by
            unfold ensure_room
            rw [hv]
          rw [← h3]
          exact hc
        rcases h.2 c meta hc2 with ⟨v, m, hv0, hm, hs⟩
        refine ⟨v, m, ?_, hm, hs⟩
        have hne : ¬ meta.room = room := by
          intro he
          rw [he, hv] at hv0
          exact Option.noConfusion hv0
        have h3 : (ensure_room t room s).rooms meta.room =
            (if meta.room = room then some (⟨t, none, [], []⟩ : RoomState)
             else s.rooms meta.room) := by
          unfold ensure_room
          rw [hv]
        rw [h3, if_neg hne]
        exact hv0

theorem inv_on_join (cfg : Config) (t : Int) (sid roomRaw userRaw : String) (force : Bool)
    (s : ServerState) (h : StoreInv s) :
    StoreInv ((on_join cfg t sid roomRaw userRaw force s).1) := by
  by_cases hr : pyStrip roomRaw = ""
  · rw [on_join_error cfg t sid roomRaw userRaw force s (Or.inl hr)]
    exact h
  by_cases hu : pyStrip userRaw = ""
  · rw [on_join_error cfg t sid roomRaw userRaw force s (Or.inr hu)]
    exact h
  rcases ensure_room_inv_parts t (pyStrip roomRaw) s h with ⟨hE1, hE3, hEI⟩
  cases hmem : ((ensure_room t (pyStrip roomRaw) s).rooms (pyStrip roomRaw)).bind
      (fun v => dget v.users (pyStrip userRaw)) with
  | none =>
      rw [on_join_fresh cfg t sid roomRaw userRaw force s hr hu hmem]
      refine joinProceed_inv cfg t sid (pyStrip roomRaw) (pyStrip userRaw) _ [] hE1
        (fun v w hv2 hw => Or.inr (hE3 v w hv2 hw)) ?_ hEI
      intro v m hv2 hm
      rw [hv2] at hmem
      simp only [Option.some_bind] at hmem
      rw [hm] at hmem
      exact Option.noConfusion hmem
  | some ex =>
      rcases ensured_member_some t (pyStrip roomRaw) (pyStrip userRaw) s ex hmem with
        ⟨v, hv, hvm⟩
      have hE : ensure_room t (pyStrip roomRaw) s = s :=
        ensure_room_present t (pyStrip roomRaw) s v hv
      by_cases hsid : ex.sid = sid
      · rw [on_join_refresh cfg t sid roomRaw userRaw force s ex hr hu hmem hsid]
        refine joinProceed_inv cfg t sid (pyStrip roomRaw) (pyStrip userRaw) _ [] hE1
          (fun v' w hv2 hw => Or.inr (hE3 v' w hv2 hw)) ?_ hEI
        intro v' m hv2 hm
        rw [hE] at hv2
        rw [hv] at hv2
        obtain rfl : v = v' := Option.some.inj hv2
        rw [hvm] at hm
        obtain rfl : ex = m := Option.some.inj hm
        exact hsid
      · by_cases hstale : t - ex.last_seen ≥ cfg.staleSeconds ∨ force = true
        · rw [on_join_evict cfg t sid roomRaw userRaw force s ex hr hu hmem hsid hstale, hE]
          have hrm := remove_user_removes (pyStrip roomRaw) (pyStrip userRaw)
            (some ex.sid) s v ex hv hvm (Or.inr rfl)
          rcases remove_user_inv_parts (pyStrip roomRaw) (pyStrip userRaw)
            (some ex.sid) s h with ⟨-, hIdx, hOther⟩
          refine joinProceed_inv cfg t sid (pyStrip roomRaw) (pyStrip userRaw) _ _
            hOther ?_ ?_ hIdx
          · intro v' w hv2 hw
            rw [hrm] at hv2
            have hv3 : (if (pyStrip roomRaw) = (pyStrip roomRaw) then
                (if derase v.users (pyStrip userRaw) = [] then none
                 else some { v with users := derase v.users (pyStrip userRaw) })
              else s.rooms (pyStrip roomRaw)) = some v' := hv2
            rw [if_pos rfl] at hv3
            by_cases hnil : derase v.users (pyStrip userRaw) = []
            · rw [if_pos hnil] at hv3
              exact Option.noConfusion hv3
            · rw [if_neg hnil] at hv3
              obtain rfl : { v with users := derase v.users (pyStrip userRaw) } = v' :=
                Option.some.inj hv3
              have hw2 : v.owner = some w := hw
              rcases h.1 (pyStrip roomRaw) v hv with ⟨-, w0, hw0, hmem0⟩
              rw [hw2] at hw0
              obtain rfl : w = w0 := Option.some.inj hw0
              by_cases hwu : w = pyStrip userRaw
              · exact Or.inl hwu
              · refine Or.inr ?_
                have : dget (derase v.users (pyStrip userRaw)) w = dget v.users w :=
                  dget_derase_ne v.users (pyStrip userRaw) w (fun he => hwu he)
                rw [show dget ({ v with users := derase v.users (pyStrip userRaw) } :
                    RoomState).users w = dget (derase v.users (pyStrip userRaw)) w from rfl,
                  this]
                exact hmem0
          · intro v' m hv2 hm
            rw [hrm] at hv2
            have hv3 : (if (pyStrip roomRaw) = (pyStrip roomRaw) then
                (if derase v.users (pyStrip userRaw) = [] then none
                 else some { v with users := derase v.users (pyStrip userRaw) })
              else s.rooms (pyStrip roomRaw)) = some v' := hv2
            rw [if_pos rfl] at hv3
            by_cases hnil : derase v.users (pyStrip userRaw) = []
            · rw [if_pos hnil] at hv3
              exact Option.noConfusion hv3
            · rw [if_neg hnil] at hv3
              obtain rfl : { v with users := derase v.users (pyStrip userRaw) } = v' :=
                Option.some.inj hv3
              have hm2 : dget (derase v.users (pyStrip userRaw)) (pyStrip userRaw) = some m :=
                hm
              rw [dget_derase_self] at hm2
              exact Option.noConfusion hm2
        · cases force with
          | true => exact absurd (Or.inr rfl) hstale
          | false =>
              have hfresh : ¬ t - ex.last_seen ≥ cfg.staleSeconds := by
                intro hc
                exact hstale (Or.inl hc)
              rw [on_join_conflict cfg t sid roomRaw userRaw s ex hr hu hmem hsid hfresh, hE]
              exact h

theorem inv_step (cfg : Config) (s : ServerState) (e : Event) (h : StoreInv s) :
    StoreInv (step cfg s e) := by
  cases e with
  | join t sid room user force => exact inv_on_join cfg t sid room user force s h
  | leave t sid => exact inv_on_leave cfg t sid s h
  | disconnect t sid => exact inv_on_disconnect t sid s h
  | graceCheck t sid => exact inv_cleanup cfg t sid s h
  | kick t sid room target => exact inv_on_kick cfg t sid room target s h
  | heartbeat t sid => exact inv_on_heartbeat t sid s h

theorem inv_run (cfg : Config) (evs : List Event) (s : ServerState) (h : StoreInv s) :
    StoreInv (run cfg evs s) := by
  induction evs generalizing s with
  | nil => exact h
  | cons e rest ih =>
      exact ih (step cfg s e) (inv_step cfg s e h)

/-- C1: after any finite sequence of join / leave / disconnect / grace-check /
kick / heartbeat events run from the empty state, every room present in the
store has at least one member, and its (unique, since `owner` is a single
optional field) owner is the display name of a current member.  In particular
an operation that removes a room's last member cannot leave the room behind:
an empty room would contradict the first conjunct. -/
theorem c1_ownership_invariant (cfg : Config) (evs : List Event) (r : String)
    (v : RoomState) (hv : (run cfg evs initState).rooms r = some v) :
    ¬ v.users = [] ∧ ∃ w, v.owner = some w ∧ (dget v.users w).isSome :=
  (inv_run cfg evs initState inv_init).1 r v hv

/-- Closed instantiation of `c1_ownership_invariant`: the room produced by a
single join is non-empty and owned by its sole member. -/
theorem c1_ownership_invariant_witness :
    (run cfg0 [Event.join 0 "A" "r" "alice" false] initState).rooms "r" =
        some ⟨0, some "alice", [("alice", ⟨"A", 0, 0⟩)],
          [⟨0, "system", none, "alice joined", "r"⟩]⟩ ∧
    (¬ (⟨0, some "alice", [("alice", ⟨"A", 0, 0⟩)],
          [⟨0, "system", none, "alice joined", "r"⟩]⟩ : RoomState).users = [] ∧
      ∃ w, (⟨0, some "alice", [("alice", ⟨"A", 0, 0⟩)],
          [⟨0, "system", none, "alice joined", "r"⟩]⟩ : RoomState).owner = some w ∧
        (dget (⟨0, some "alice", [("alice", ⟨"A", 0, 0⟩)],
          [⟨0, "system", none, "alice joined", "r"⟩]⟩ : RoomState).users w).isSome) :=
  ⟨by decide,
   c1_ownership_invariant cfg0 [Event.join 0 "A" "r" "alice" false] "r"
     ⟨0, some "alice", [("alice", ⟨"A", 0, 0⟩)],
       [⟨0, "system", none, "alice joined", "r"⟩]⟩ (by decide)⟩

/-- C4 counterexample: the member-to-entry direction of the claimed registry
biconditional fails when one connection id joins under two display names.
After `join(r, alice, conn=A)` followed by `join(r, bob, conn=A)`, member
`alice` still stores connection id `"A"`, but the registry entry for `"A"`
names `bob`: no entry points back at `alice`, although she was neither
removed nor replaced. -/
theorem c4_registry_iff_counterexample :
    ¬ (∀ r u m,
        memberOf (run cfg0 [Event.join 0 "A" "r" "alice" false,
            Event.join 1 "A" "r" "bob" false] initState) r u = some m →
        (run cfg0 [Event.join 0 "A" "r" "alice" false,
            Event.join 1 "A" "r" "bob" false] initState).sid_index m.sid =
          some ⟨r, u⟩) :=
  fun H => absurd (H "r" "alice" ⟨"A", 0, 0⟩ (by decide)) (by decide)

/-- C4 (amended): the entry-to-member direction holds for every event
sequence from the empty state: a registry entry for connection id `c` always
names an existing member of an existing room whose stored connection id is
exactly `c` (stale entries are pruned whenever a member is removed or
replaced).  The converse — that every member's stored connection id has a
registry entry naming that member — is false; see the counterexample. -/
theorem c4_registry_entry_sound_amended (cfg : Config) (evs : List Event)
    (c : String) (meta : SidMeta)
    (hc : (run cfg evs initState).sid_index c = some meta) :
    ∃ v m, (run cfg evs initState).rooms meta.room = some v ∧
      dget v.users meta.user = some m ∧ m.sid = c :=
  (inv_run cfg evs initState inv_init).2 c meta hc

/-- Closed instantiation of `c4_registry_entry_sound_amended` after a single
join: the entry for `"A"` names member `alice` of room `r`, who stores
`"A"`. -/
theorem c4_registry_entry_sound_amended_witness :
    (run cfg0 [Event.join 0 "A" "r" "alice" false] initState).sid_index "A" =
        some ⟨"r", "alice"⟩ ∧
    ∃ v m, (run cfg0 [Event.join 0 "A" "r" "alice" false] initState).rooms
        (⟨"r", "alice"⟩ : SidMeta).room = some v ∧
      dget v.users (⟨"r", "alice"⟩ : SidMeta).user = some m ∧ m.sid = "A" :=
  ⟨by decide,
   c4_registry_entry_sound_amended cfg0 [Event.join 0 "A" "r" "alice" false]
     "A" ⟨"r", "alice"⟩ (by decide)⟩
